import Mathlib

/-!
Verification of the PolyNOM persistence engine.

This file shallowly embeds the core data structures and operations of the
PolyNOM source tree (schema registry dependency ordering, the entity
dirty-diff engine, the unit-of-work session, the relationship descriptor,
and the schema-migration diff) as executable Lean definitions, and proves
or refutes the specified properties about them.

Conventions used throughout:
* Python dicts are embedded as insertion-ordered association lists; an
  overwrite of an existing key keeps its position, as Python dicts do.
* Python `None` is the value `Value.none`; `dict.get(k)` with no default is
  `dictGet`, which yields `Value.none` when the key is absent.
* Python exceptions become `Except Err` results; each `Err` constructor
  records which Python exception the source raises at that point.
* Python `set`/`dict` iteration order is unspecified; embeddings use list
  order, a faithful determinization of one allowed execution.
-/

namespace PolyNOM

/-- Embedded Python values as they occur in entity fields, relationship
slots and audit data. `ref i` is a reference to the heap object at index
`i` (Python object identity is index equality); `session` is a reference
to the (unique) session object of a world. -/
inductive Value where
  | none
  | vbool (b : Bool)
  | vint (n : Int)
  | vstr (s : String)
  | ref (i : Nat)
  | session
deriving DecidableEq, Repr

/-- Python truthiness of an embedded value (`if x:`). -/
def truthy : Value → Bool
  | Value.none => false
  | Value.vbool b => b
  | Value.vint n => n != 0
  | Value.vstr s => s ≠ ""
  | Value.ref _ => true
  | Value.session => true

/-- Python truthiness of an optional string attribute (`None` and `""` are
falsy). -/
def truthyStr : Option String → Bool
  | Option.none => false
  | Option.some s => s ≠ ""

/-- Contiguous-sublist test on character lists. -/
def isSubChars (needle : List Char) : List Char → Bool
  | [] => needle.isEmpty
  | c :: rest => needle.isPrefixOf (c :: rest) || isSubChars needle rest

/-- Python's substring test `needle in hay` on strings. -/
def hasSub (needle hay : String) : Bool :=
  isSubChars needle.toList hay.toList

section Dict

variable {α : Type} [DecidableEq α] {β : Type}

/-- Python dict lookup returning an `Option` (`k in d` / `d.get(k)`).
Dicts are embedded as insertion-ordered association lists with unique
keys; lookup returns the first binding. -/
def dFind (d : List (α × β)) (k : α) : Option β :=
  match d with
  | [] => Option.none
  | p :: d => if p.1 = k then Option.some p.2 else dFind d k

/-- Python dict assignment `d[k] = v`: overwrite in place if the key
exists (keeping its position, as Python dicts do), else append. -/
def dSet (d : List (α × β)) (k : α) (v : β) : List (α × β) :=
  match d with
  | [] => [(k, v)]
  | p :: d => if p.1 = k then (k, v) :: d else p :: dSet d k v

theorem dFind_dSet (d : List (α × β)) (k k' : α) (v : β) :
    dFind (dSet d k v) k' = if k = k' then Option.some v else dFind d k' := by
  induction d with
  | nil => by_cases h : k = k' <;> simp [dSet, dFind, h]
  | cons p d ih =>
    by_cases hp : p.1 = k
    · by_cases h : k = k' <;> simp [dSet, dFind, hp, h, hp ▸ h]
    · by_cases h : k = k' <;> simp_all [dSet, dFind, hp, h]

theorem dFind_dSet_same (d : List (α × β)) (k : α) (v : β) :
    dFind (dSet d k v) k = Option.some v := by
  simp [dFind_dSet]

theorem dFind_dSet_ne (d : List (α × β)) (k k' : α) (v : β) (h : k ≠ k') :
    dFind (dSet d k v) k' = dFind d k' := by
  simp [dFind_dSet, h]

end Dict

/-- Python `d.get(k)` on an entity `__dict__` (absent key yields `None`),
as used by `BaseModel._diff` and `getattr(x, a, None)`. -/
def dictGet (d : List (String × Value)) (k : String) : Value :=
  (dFind d k).getD Value.none

theorem dictGet_dSet (d : List (String × Value)) (k k' : String) (v : Value) :
    dictGet (dSet d k v) k' = if k = k' then v else dictGet d k' := by
  by_cases h : k = k' <;> simp [dictGet, dFind_dSet, h]

/-! ## Schema registry dependency ordering (`polynom/schema/schema_registry.py`)

`_sort_by_foreign_key` runs Kahn's algorithm over the foreign-key graph of
the registered schema descriptors: a node becomes emittable once every
entity name it references through a `ForeignKeyField` has already been
emitted, and a `RuntimeError("Circular FK dependency")` is raised when the
queue drains with nodes left over.  The source pops one ready node at a
time from a BFS queue whose order depends on Python set iteration order
(the spec leaves the tie-break unspecified); the embedding determinizes
this by emitting, each round, all currently ready nodes in list order,
which drains exactly the same node set. -/

/-- One field of a schema descriptor as the registry sees it: a
program-facing name plus, for `ForeignKeyField`s, the referenced entity
name (`referenced_entity_name`). -/
structure FieldSpec where
  pythonName : String
  fkRef : Option String
deriving DecidableEq, Repr

/-- A registered schema descriptor: `entity_name` plus its fields. -/
structure SchemaDesc where
  entityName : String
  fields : List FieldSpec
deriving DecidableEq, Repr

/-- The entity names a descriptor depends on: the `referenced_entity_name`
of each of its `ForeignKeyField`s (the set `dependencys[name]`). -/
def fkRefs (s : SchemaDesc) : List String :=
  s.fields.filterMap (·.fkRef)

/-- The entity names of a list of descriptors. -/
def namesOf (l : List SchemaDesc) : List String :=
  l.map (·.entityName)

/-- A node is ready when all of its unresolved dependencies have been
emitted (in-degree zero in Kahn's algorithm). -/
def readyB (emitted : List String) (s : SchemaDesc) : Bool :=
  (fkRefs s).all (fun d => emitted.contains d)

/-- The worklist loop of `_sort_by_foreign_key`: each round emits every
descriptor whose dependencies are all emitted; if none is ready while
descriptors remain, the cycle error is raised.  `fuel` only bounds the
rounds (each round strictly shrinks `pending`, so `pending.length + 1`
always suffices). -/
def sortGo : Nat → List String → List SchemaDesc → List SchemaDesc →
    Except String (List SchemaDesc)
  | _, _, acc, [] => Except.ok acc
  | 0, _, _, _ :: _ => Except.error "Circular FK dependency"
  | fuel + 1, emitted, acc, p :: ps =>
    let rdy := (p :: ps).filter (readyB emitted)
    if rdy.isEmpty then Except.error "Circular FK dependency"
    else sortGo fuel (emitted ++ namesOf rdy) (acc ++ rdy)
      ((p :: ps).filter (fun s => ! readyB emitted s))

/-- `_sort_by_foreign_key(schemas)`. -/
def sort_by_foreign_key (schemas : List SchemaDesc) : Except String (List SchemaDesc) :=
  sortGo (schemas.length + 1) [] [] schemas

/-- The ordering property the registry promises: no descriptor references
(by foreign key) the entity name of itself or of any descriptor at or
after its own position — i.e. every referenced descriptor appears strictly
before each descriptor referencing it. -/
def topoSortedB : List SchemaDesc → Bool
  | [] => true
  | s :: rest =>
    (s :: rest).all (fun t => ! (fkRefs s).contains t.entityName) && topoSortedB rest

/-- Auxiliary invariant for the worklist: every descriptor's references
are contained in `emitted` extended by the names of the descriptors
before it in the list. -/
def topoFromB (emitted : List String) : List SchemaDesc → Bool
  | [] => true
  | s :: rest =>
    (fkRefs s).all (fun d => emitted.contains d) &&
      topoFromB (emitted ++ [s.entityName]) rest

/-- Every foreign key of every descriptor references a registered entity
name (the graph over the registered descriptors is closed). -/
def closedB (schemas : List SchemaDesc) : Bool :=
  schemas.all (fun s => (fkRefs s).all (fun d => (namesOf schemas).contains d))

example :
    sort_by_foreign_key
      [⟨"b", [⟨"first", Option.some "a"⟩]⟩, ⟨"a", [⟨"first", Option.none⟩]⟩]
    = Except.ok [⟨"a", [⟨"first", Option.none⟩]⟩, ⟨"b", [⟨"first", Option.some "a"⟩]⟩] := rfl

example :
    sort_by_foreign_key [⟨"a", [⟨"first", Option.some "a"⟩]⟩]
    = Except.error "Circular FK dependency" := rfl

example :
    sort_by_foreign_key
      [⟨"a", [⟨"f", Option.some "b"⟩]⟩, ⟨"b", [⟨"f", Option.some "a"⟩]⟩]
    = Except.error "Circular FK dependency" := rfl

theorem memContains {l : List String} {a : String} : l.contains a = true ↔ a ∈ l := by
  simp

theorem topoFromB_cons {e : List String} {s : SchemaDesc} {l : List SchemaDesc} :
    topoFromB e (s :: l)
      = ((fkRefs s).all (fun d => e.contains d) && topoFromB (e ++ [s.entityName]) l) := rfl

theorem topoFromB_mono : ∀ (l : List SchemaDesc) (e e' : List String),
    (∀ d, d ∈ e → d ∈ e') → topoFromB e l = true → topoFromB e' l = true := by
  intro l
  induction l with
  | nil => intro e e' _ _; rfl
  | cons s l ih =>
    intro e e' hsub h
    rw [topoFromB_cons, Bool.and_eq_true] at h ⊢
    refine ⟨?_, ih (e ++ [s.entityName]) (e' ++ [s.entityName]) ?_ h.2⟩
    · rw [List.all_eq_true] at h ⊢
      intro d hd
      exact memContains.2 (hsub d (memContains.1 (h.1 d hd)))
    · intro d hd
      rcases List.mem_append.1 hd with h1 | h1
      · exact List.mem_append.2 (Or.inl (hsub d h1))
      · exact List.mem_append.2 (Or.inr h1)

theorem topoFromB_append : ∀ (l₁ l₂ : List SchemaDesc) (e : List String),
    topoFromB e (l₁ ++ l₂) = (topoFromB e l₁ && topoFromB (e ++ namesOf l₁) l₂) := by
  intro l₁
  induction l₁ with
  | nil => intro l₂ e; simp [topoFromB, namesOf]
  | cons s l ih =>
    intro l₂ e
    rw [List.cons_append, topoFromB_cons, topoFromB_cons, ih, namesOf]
    simp [List.append_assoc, namesOf, Bool.and_assoc]

theorem topoFromB_of_ready : ∀ (l : List SchemaDesc) (e : List String),
    (∀ s, s ∈ l → readyB e s = true) → topoFromB e l = true := by
  intro l
  induction l with
  | nil => intro e _; rfl
  | cons s l ih =>
    intro e h
    rw [topoFromB_cons, Bool.and_eq_true]
    refine ⟨h s (List.mem_cons_self s l), ?_⟩
    refine topoFromB_mono l e (e ++ [s.entityName]) (fun d hd => List.mem_append.2 (Or.inl hd)) ?_
    exact ih e (fun t ht => h t (List.mem_cons_of_mem s ht))

theorem topoFromB_filter : ∀ (l : List SchemaDesc) (e e' : List String)
    (p : SchemaDesc → Bool),
    (∀ d, d ∈ e → d ∈ e') →
    (∀ s, s ∈ l → p s = false → s.entityName ∈ e') →
    topoFromB e l = true → topoFromB e' (l.filter p) = true := by
  intro l
  induction l with
  | nil => intro e e' p _ _ _; rfl
  | cons s l ih =>
    intro e e' p hsub hrm h
    rw [topoFromB_cons, Bool.and_eq_true] at h
    by_cases hp : p s = true
    · rw [List.filter_cons_of_pos hp, topoFromB_cons, Bool.and_eq_true]
      constructor
      · rw [List.all_eq_true] at h ⊢
        intro d hd
        exact memContains.2 (hsub d (memContains.1 (h.1 d hd)))
      · refine ih (e ++ [s.entityName]) (e' ++ [s.entityName]) p ?_ ?_ h.2
        · intro d hd
          rcases List.mem_append.1 hd with h1 | h1
          · exact List.mem_append.2 (Or.inl (hsub d h1))
          · exact List.mem_append.2 (Or.inr h1)
        · intro t ht hpt
          exact List.mem_append.2 (Or.inl (hrm t (List.mem_cons_of_mem s ht) hpt))
    · rw [List.filter_cons_of_neg (by simpa using hp)]
      refine ih (e ++ [s.entityName]) e' p ?_ ?_ h.2
      · intro d hd
        rcases List.mem_append.1 hd with h1 | h1
        · exact hsub d h1
        · rcases List.mem_singleton.1 h1 with rfl
          exact hrm s (List.mem_cons_self s l) (by simpa using hp)
      · intro t ht hpt
        exact hrm t (List.mem_cons_of_mem s ht) hpt

theorem namesOf_cons (s : SchemaDesc) (l : List SchemaDesc) :
    namesOf (s :: l) = s.entityName :: namesOf l := rfl

theorem topoSortedB_of_topoFromB : ∀ (l : List SchemaDesc) (e : List String),
    topoFromB e l = true → (namesOf l).Nodup →
    (∀ n, n ∈ e → n ∉ namesOf l) → topoSortedB l = true := by
  intro l
  induction l with
  | nil => intro e _ _ _; rfl
  | cons s l ih =>
    intro e h hnd hdisj
    rw [topoFromB_cons, Bool.and_eq_true] at h
    rw [namesOf_cons, List.nodup_cons] at hnd
    have hall : ∀ t, t ∈ s :: l → (fkRefs s).contains t.entityName = false := by
      intro t ht
      cases hq : (fkRefs s).contains t.entityName
      · rfl
      · have h1 := h.1
        rw [List.all_eq_true] at h1
        have hmem : t.entityName ∈ e := memContains.1 (h1 _ (memContains.1 hq))
        exact absurd (List.mem_map.2 ⟨t, ht, rfl⟩) (hdisj t.entityName hmem)
    have htail : topoSortedB l = true := by
      refine ih (e ++ [s.entityName]) h.2 hnd.2 ?_
      intro n hn hmem
      rcases List.mem_append.1 hn with h1 | h1
      · exact hdisj n h1 (by rw [namesOf_cons]; exact List.mem_cons_of_mem _ hmem)
      · rcases List.mem_singleton.1 h1 with rfl
        exact hnd.1 hmem
    rw [topoSortedB, Bool.and_eq_true, List.all_eq_true]
    refine ⟨fun t ht => ?_, htail⟩
    have := hall t ht
    simpa using this

theorem topoFromB_of_topoSortedB : ∀ (l : List SchemaDesc) (e : List String),
    topoSortedB l = true →
    (∀ s, s ∈ l → ∀ d, d ∈ fkRefs s → d ∈ e ∨ d ∈ namesOf l) →
    topoFromB e l = true := by
  intro l
  induction l with
  | nil => intro e _ _; rfl
  | cons s l ih =>
    intro e h hcl
    rw [topoSortedB, Bool.and_eq_true, List.all_eq_true] at h
    rw [topoFromB_cons, Bool.and_eq_true]
    constructor
    · rw [List.all_eq_true]
      intro d hd
      rcases hcl s (List.mem_cons_self s l) d hd with h1 | h1
      · exact memContains.2 h1
      · exfalso
        rcases List.mem_map.1 h1 with ⟨t, ht, rfl⟩
        have hf := h.1 t ht
        have h2 : (fkRefs s).contains t.entityName = true := memContains.2 hd
        have hf2 : t.entityName ∉ fkRefs s := by simpa using hf
        exact hf2 hd
    · refine ih (e ++ [s.entityName]) h.2 ?_
      intro t ht d hd
      rcases hcl t (List.mem_cons_of_mem s ht) d hd with h1 | h1
      · exact Or.inl (List.mem_append.2 (Or.inl h1))
      · rw [namesOf_cons] at h1
        rcases List.mem_cons.1 h1 with h2 | h2
        · exact Or.inl (List.mem_append.2 (Or.inr (List.mem_singleton.2 h2)))
        · exact Or.inr h2

theorem namesOf_append (l₁ l₂ : List SchemaDesc) :
    namesOf (l₁ ++ l₂) = namesOf l₁ ++ namesOf l₂ := List.map_append _ _ _

theorem sortGo_succ_cons (fuel : Nat) (e : List String) (acc : List SchemaDesc)
    (p : SchemaDesc) (ps : List SchemaDesc) :
    sortGo (fuel + 1) e acc (p :: ps)
      = (if ((p :: ps).filter (readyB e)).isEmpty then
          Except.error "Circular FK dependency"
        else sortGo fuel (e ++ namesOf ((p :: ps).filter (readyB e)))
          (acc ++ (p :: ps).filter (readyB e))
          ((p :: ps).filter (fun s => ! readyB e s))) := rfl

theorem sortGo_sound : ∀ (fuel : Nat) (e : List String) (acc pending out : List SchemaDesc),
    sortGo fuel e acc pending = Except.ok out →
    e = namesOf acc →
    topoFromB [] acc = true →
    out.Perm (acc ++ pending) ∧ topoFromB [] out = true := by
  intro fuel
  induction fuel with
  | zero =>
    intro e acc pending out h he hacc
    cases pending with
    | nil =>
      simp only [sortGo, Except.ok.injEq] at h
      subst h
      exact ⟨by simp, hacc⟩
    | cons p ps => exact Except.noConfusion h
  | succ fuel ih =>
    intro e acc pending out h he hacc
    cases pending with
    | nil =>
      simp only [sortGo, Except.ok.injEq] at h
      subst h
      exact ⟨by simp, hacc⟩
    | cons p ps =>
      rw [sortGo_succ_cons] at h
      by_cases hrdy : ((p :: ps).filter (readyB e)).isEmpty
      · rw [if_pos hrdy] at h
        exact Except.noConfusion h
      · rw [if_neg hrdy] at h
        have he2 : e ++ namesOf ((p :: ps).filter (readyB e))
            = namesOf (acc ++ (p :: ps).filter (readyB e)) := by
          rw [namesOf_append, he]
        have hacc2 : topoFromB [] (acc ++ (p :: ps).filter (readyB e)) = true := by
          rw [topoFromB_append, Bool.and_eq_true]
          refine ⟨hacc, ?_⟩
          refine topoFromB_of_ready _ _ ?_
          intro s hs
          have := List.of_mem_filter hs
          rw [he] at this
          simpa using this
        obtain ⟨hperm, htopo⟩ := ih _ _ _ _ h he2 hacc2
        refine ⟨?_, htopo⟩
        refine hperm.trans ?_
        rw [List.append_assoc]
        exact List.Perm.append_left acc (List.filter_append_perm _ _)

theorem sortGo_complete : ∀ (fuel : Nat) (e : List String) (acc pending : List SchemaDesc),
    pending.length < fuel →
    (∃ l, l.Perm pending ∧ topoFromB e l = true) →
    ∃ out, sortGo fuel e acc pending = Except.ok out := by
  intro fuel
  induction fuel with
  | zero =>
    intro e acc pending hlen _
    exact absurd hlen (Nat.not_lt_zero _)
  | succ fuel ih =>
    intro e acc pending hlen hex
    cases pending with
    | nil => exact ⟨acc, rfl⟩
    | cons p ps =>
      obtain ⟨l, hperm, htopo⟩ := hex
      cases l with
      | nil =>
        have := hperm.length_eq
        simp at this
      | cons hd t =>
        have hready : readyB e hd = true := by
          rw [topoFromB_cons, Bool.and_eq_true] at htopo
          exact htopo.1
        have hmem : hd ∈ p :: ps := hperm.mem_iff.1 (List.mem_cons_self hd t)
        have hmemf : hd ∈ (p :: ps).filter (readyB e) :=
          List.mem_filter.2 ⟨hmem, hready⟩
        have hrdy : ¬ ((p :: ps).filter (readyB e)).isEmpty := by
          cases hq : (p :: ps).filter (readyB e) with
          | nil => rw [hq] at hmemf; cases hmemf
          | cons a b => simp [hq]
        rw [sortGo_succ_cons, if_neg hrdy]
        refine ih _ _ _ ?_ ?_
        · have hsum : ((p :: ps).filter (readyB e)).length
              + ((p :: ps).filter (fun s => ! readyB e s)).length = (p :: ps).length := by
            have := (List.filter_append_perm (readyB e) (p :: ps)).length_eq
            simpa [List.length_append] using this
          have hpos : 0 < ((p :: ps).filter (readyB e)).length :=
            List.length_pos.2 (fun hq => by rw [hq] at hmemf; cases hmemf)
          have : ((p :: ps).filter (fun s => ! readyB e s)).length < (p :: ps).length := by
            omega
          omega
        · refine ⟨(hd :: t).filter (fun s => ! readyB e s), ?_, ?_⟩
          · exact hperm.filter _
          · refine topoFromB_filter (hd :: t) e
              (e ++ namesOf ((p :: ps).filter (readyB e))) _ ?_ ?_ htopo
            · intro d hd2
              exact List.mem_append.2 (Or.inl hd2)
            · intro s hs hps
              have hrs : readyB e s = true := by
                cases hq : readyB e s
                · rw [hq] at hps; cases hps
                · rfl
              refine List.mem_append.2 (Or.inr ?_)
              refine List.mem_map.2 ⟨s, ?_, rfl⟩
              exact List.mem_filter.2 ⟨hperm.mem_iff.1 hs, hrs⟩

theorem sortGo_ok_or_error : ∀ (fuel : Nat) (e : List String) (acc pending : List SchemaDesc),
    (∃ out, sortGo fuel e acc pending = Except.ok out) ∨
      sortGo fuel e acc pending = Except.error "Circular FK dependency" := by
  intro fuel
  induction fuel with
  | zero =>
    intro e acc pending
    cases pending with
    | nil => exact Or.inl ⟨acc, rfl⟩
    | cons p ps => exact Or.inr rfl
  | succ fuel ih =>
    intro e acc pending
    cases pending with
    | nil => exact Or.inl ⟨acc, rfl⟩
    | cons p ps =>
      rw [sortGo_succ_cons]
      by_cases hrdy : ((p :: ps).filter (readyB e)).isEmpty
      · rw [if_pos hrdy]; exact Or.inr rfl
      · rw [if_neg hrdy]; exact ih _ _ _

/-- **C1.** For descriptor sets with pairwise-distinct entity names whose
foreign keys all reference registered entity names:
(1) every successful result of `_sort_by_foreign_key` is a permutation of
the input in which every descriptor referenced by another's foreign key
appears strictly before the referencing descriptor;
(2) the call succeeds exactly when such a dependency-respecting
permutation exists (i.e. the graph is acyclic); and
(3) on every cyclic graph — single-node self-references included — it
fails with the `RuntimeError("Circular FK dependency")` that the error
taxonomy names `CyclicDependencyError`. -/
theorem sort_by_foreign_key_correct (schemas : List SchemaDesc)
    (hnd : (namesOf schemas).Nodup) (hcl : closedB schemas = true) :
    (∀ l, sort_by_foreign_key schemas = Except.ok l →
        l.Perm schemas ∧ topoSortedB l = true)
  ∧ ((∃ l, l.Perm schemas ∧ topoSortedB l = true) ↔
      (∃ l, sort_by_foreign_key schemas = Except.ok l))
  ∧ ((¬ ∃ l, l.Perm schemas ∧ topoSortedB l = true) →
      sort_by_foreign_key schemas = Except.error "Circular FK dependency") := by
  have hsound : ∀ l, sort_by_foreign_key schemas = Except.ok l →
      l.Perm schemas ∧ topoSortedB l = true := by
    intro l hok
    obtain ⟨hperm, htopo⟩ := sortGo_sound _ _ _ _ _ hok rfl rfl
    have hperm2 : l.Perm schemas := by simpa using hperm
    refine ⟨hperm2, ?_⟩
    refine topoSortedB_of_topoFromB l [] htopo ?_ ?_
    · show (List.map (fun s : SchemaDesc => s.entityName) l).Nodup
      exact ((List.Perm.map (fun s : SchemaDesc => s.entityName) hperm2).nodup_iff).2 hnd
    · intro n hn
      cases hn
  refine ⟨hsound, ⟨?_, ?_⟩, ?_⟩
  · rintro ⟨l, hperm, htopo⟩
    refine sortGo_complete _ _ [] schemas (Nat.lt_succ_self _) ⟨l, hperm, ?_⟩
    refine topoFromB_of_topoSortedB l [] htopo ?_
    intro s hs d hd
    refine Or.inr ?_
    rw [closedB, List.all_eq_true] at hcl
    have hs2 : s ∈ schemas := hperm.mem_iff.1 hs
    have := hcl s hs2
    rw [List.all_eq_true] at this
    have hd2 : d ∈ namesOf schemas := memContains.1 (this d hd)
    show d ∈ List.map (fun s : SchemaDesc => s.entityName) l
    exact ((List.Perm.map (fun s : SchemaDesc => s.entityName) hperm).mem_iff).2 hd2
  · rintro ⟨l, hok⟩
    obtain ⟨hperm, htopo⟩ := hsound l hok
    exact ⟨l, hperm, htopo⟩
  · intro hno
    rcases sortGo_ok_or_error (schemas.length + 1) [] [] schemas with ⟨out, hok⟩ | herr
    · obtain ⟨hperm, htopo⟩ := hsound out hok
      exact absurd ⟨out, hperm, htopo⟩ hno
    · exact herr

/-- A two-descriptor acyclic instance and a self-referencing instance used
by the claim witnesses. -/
def exSchemaA : SchemaDesc := ⟨"a", [⟨"first", Option.none⟩]⟩

def exSchemaB : SchemaDesc := ⟨"b", [⟨"first", Option.some "a"⟩]⟩

def exSelf : SchemaDesc := ⟨"a", [⟨"first", Option.some "a"⟩]⟩

/-- Witness for C1: on the concrete acyclic pair the hypotheses hold and
the theorem yields the permutation/ordering facts; the ordered result is
`[a, b]`. -/
theorem sort_by_foreign_key_correct_witness :
    sort_by_foreign_key [exSchemaB, exSchemaA] = Except.ok [exSchemaA, exSchemaB]
    ∧ [exSchemaA, exSchemaB].Perm [exSchemaB, exSchemaA]
    ∧ topoSortedB [exSchemaA, exSchemaB] = true :=
  ⟨rfl,
    ((sort_by_foreign_key_correct [exSchemaB, exSchemaA] (by decide) (by decide)).1
      [exSchemaA, exSchemaB] rfl).1,
    ((sort_by_foreign_key_correct [exSchemaB, exSchemaA] (by decide) (by decide)).1
      [exSchemaA, exSchemaB] rfl).2⟩

/-! ## Registry memoization (`register_schema` / `_get_ordered_schemas`)

The module-level state of `schema_registry.py` is the pair
(`_registered_schemas`, `_sorted_schemas`).  `register_schema` only adds
to the set; `_get_ordered_schemas` returns the memo when it is truthy
(non-`None` and non-empty) and otherwise computes and stores it. -/

structure Registry where
  registered : List SchemaDesc
  sorted : Option (List SchemaDesc)
deriving DecidableEq, Repr

/-- `register_schema(schema)`: adds the descriptor to the module-level set
`_registered_schemas`.  It does not touch `_sorted_schemas`. -/
def register_schema (r : Registry) (s : SchemaDesc) : Registry :=
  { r with registered :=
      if s ∈ r.registered then r.registered else r.registered ++ [s] }

/-- The memo-miss path of `_get_ordered_schemas`: compute
`_sort_by_foreign_key(_registered_schemas)` and store it (a raised
`RuntimeError` propagates and leaves the memo untouched). -/
def computeOrdered (r : Registry) : Except String (List SchemaDesc × Registry) :=
  match sort_by_foreign_key r.registered with
  | Except.ok l => Except.ok (l, { r with sorted := Option.some l })
  | Except.error e => Except.error e

/-- `_get_ordered_schemas()`: `if _sorted_schemas: return _sorted_schemas`
(a Python truthiness test, so both `None` and the empty list miss),
else compute and memoize. -/
def get_ordered_schemas (r : Registry) : Except String (List SchemaDesc × Registry) :=
  match r.sorted with
  | Option.some l => if l.isEmpty then computeOrdered r else Except.ok (l, r)
  | Option.none => computeOrdered r

/-- The registry state after registering `exSchemaA` and computing the
order once. -/
def regMemoA : Registry := ⟨[exSchemaA], Option.some [exSchemaA]⟩

/-- The state after then registering `exSchemaB`: the memo survives. -/
def regStale : Registry := ⟨[exSchemaA, exSchemaB], Option.some [exSchemaA]⟩

/-- **Counterexample for C9.** Registering a further descriptor after the
order has been computed does *not* invalidate the memo: after registering
`exSchemaB` on a registry whose order `[exSchemaA]` is already memoized,
the next `_get_ordered_schemas()` call still returns `[exSchemaA]`, an
order that omits the registered descriptor `exSchemaB` — the order *does*
silently go stale, contradicting the claim. -/
theorem register_schema_stale_counterexample :
    get_ordered_schemas regMemoA = Except.ok ([exSchemaA], regMemoA)
  ∧ register_schema regMemoA exSchemaB = regStale
  ∧ get_ordered_schemas regStale = Except.ok ([exSchemaA], regStale)
  ∧ exSchemaB ∈ regStale.registered
  ∧ exSchemaB ∉ [exSchemaA] :=
  ⟨rfl, by decide, rfl, by decide, by decide⟩

/-- **C9 (amended).** The computed dependency order is memoized
process-wide, but registering a further schema descriptor after the order
has been computed does *not* invalidate the memo: `register_schema` never
changes `_sorted_schemas`, and any subsequent request that finds a
non-empty memo returns it unchanged — stale with respect to descriptors
registered after the first computation. -/
theorem register_schema_never_invalidates (r : Registry) (s : SchemaDesc)
    (l : List SchemaDesc) (hmem : r.sorted = Option.some l) (hne : l ≠ []) :
    (register_schema r s).sorted = r.sorted
  ∧ get_ordered_schemas r = Except.ok (l, r)
  ∧ get_ordered_schemas (register_schema r s)
      = Except.ok (l, register_schema r s) := by
  have hget : ∀ r' : Registry, r'.sorted = Option.some l →
      get_ordered_schemas r' = Except.ok (l, r') := by
    intro r' hmem'
    rw [get_ordered_schemas, hmem']
    cases l with
    | nil => exact absurd rfl hne
    | cons a t => rfl
  exact ⟨rfl, hget r hmem, hget (register_schema r s) hmem⟩

/-- Witness for C9's amended theorem at the concrete stale registry. -/
theorem register_schema_never_invalidates_witness :
    (register_schema regMemoA exSchemaB).sorted = regMemoA.sorted
  ∧ get_ordered_schemas regMemoA = Except.ok ([exSchemaA], regMemoA) :=
  ⟨(register_schema_never_invalidates regMemoA exSchemaB [exSchemaA] rfl
      (by decide)).1,
   (register_schema_never_invalidates regMemoA exSchemaB [exSchemaA] rfl
      (by decide)).2.1⟩

/-! ## Entities and the dirty-diff engine (`polynom/model.py`)

A `BaseModel` instance is its `__dict__` (embedded as `current`), the deep
copy `_original_state` taken inside `BaseModel.__init__` (embedded as
`original`), and the `_is_active` flag.  `classId` points into a world's
class table (relationship declarations and schema field names). -/

/-- The Python exceptions raised by the embedded operations. -/
inductive Err where
  | sessionNotActive
  | sessionCompleted
  | staleEntity
  | inertDiff
  | inertSetattr
  | missingUpdateSnapshot
  | typeError
  | attributeError
  | fuelExhausted
deriving DecidableEq, Repr

/-- One live entity: `__dict__`, the captured original state, and the
active flag. -/
structure Model where
  classId : Nat
  original : List (String × Value)
  current : List (String × Value)
  isActive : Bool
deriving DecidableEq, Repr

/-- `BaseModel.__init__(self, _entry_id)`: the caller's uuid (or an
externally supplied fresh one) is stored, then `_original_state` deep
copies `__dict__` — which at that moment holds exactly the attributes the
subclass assigned *before* calling `super().__init__` (`pre`) plus
`_entry_id` — and finally `_is_active` is set. -/
def baseInit (cid : Nat) (pre : List (String × Value)) (eid : String) : Model :=
  let d := dSet pre "_entry_id" (Value.vstr eid)
  { classId := cid, original := d, current := d, isActive := true }

/-- `BaseModel.__setattr__` on a standalone entity (no relationship
descriptor interposed): `_is_active` is always writable; any other
attribute is writable only while the instance is active, else
`AttributeError("... no longer mapped ...")`. -/
def setAttrModel (m : Model) (name : String) (v : Value) : Except Err Model :=
  if name = "_is_active" then Except.ok { m with isActive := truthy v }
  else if m.isActive then Except.ok { m with current := dSet m.current name v }
  else Except.error Err.inertSetattr

/-- The loop body of `BaseModel._diff`: for every field name declared in
the schema's field map, compare the captured original value against the
current one (`dict.get`, so an absent key reads as `None`); unequal pairs
are collected as `(name, old, new)`. -/
def diffChanges (keys : List String) (m : Model) : List (String × Value × Value) :=
  keys.filterMap (fun k =>
    if dictGet m.original k = dictGet m.current k then Option.none
    else Option.some (k, dictGet m.original k, dictGet m.current k))

/-- `BaseModel._diff`: raises `ValueError` on an inert instance, else
returns the change mapping. -/
def diffFn (keys : List String) (m : Model) : Except Err (List (String × Value × Value)) :=
  if m.isActive then Except.ok (diffChanges keys m)
  else Except.error Err.inertDiff

theorem diffChanges_eq_nil (keys : List String) (m : Model)
    (h : ∀ k, k ∈ keys → dictGet m.original k = dictGet m.current k) :
    diffChanges keys m = [] := by
  rw [diffChanges, List.filterMap_eq_nil_iff]
  intro k hk
  rw [if_pos (h k hk)]

theorem modelUpd_original (m : Model) (c : List (String × Value)) :
    ({ m with current := c } : Model).original = m.original := rfl

theorem modelUpd_current (m : Model) (c : List (String × Value)) :
    ({ m with current := c } : Model).current = c := rfl

theorem diffChanges_cons (k : String) (rest : List String) (m : Model) :
    diffChanges (k :: rest) m
      = (if dictGet m.original k = dictGet m.current k then diffChanges rest m
         else (k, dictGet m.original k, dictGet m.current k) :: diffChanges rest m) := by
  rw [diffChanges, List.filterMap_cons]
  by_cases h : dictGet m.original k = dictGet m.current k
  · rw [if_pos h, if_pos h]; rfl
  · rw [if_neg h, if_neg h]; rfl

/-- After mutating exactly one declared field of an entity whose original
state equals its current state, the diff is exactly that one pair. -/
theorem diffChanges_single (keys : List String) (m : Model) (f : String) (v : Value)
    (horig : m.original = m.current) (hnd : keys.Nodup) (hf : f ∈ keys)
    (hne : v ≠ dictGet m.current f) :
    diffChanges keys { m with current := dSet m.current f v }
      = [(f, dictGet m.current f, v)] := by
  have hget : ∀ k', dictGet m.original k' = dictGet m.current k' := by
    intro k'; rw [horig]
  induction keys with
  | nil => cases hf
  | cons k rest ih =>
    rw [List.nodup_cons] at hnd
    rw [diffChanges_cons, modelUpd_original, modelUpd_current]
    by_cases hfk : f = k
    · subst hfk
      rw [dictGet_dSet, if_pos rfl, hget f]
      rw [if_neg (fun h => hne h.symm)]
      have htail : diffChanges rest { m with current := dSet m.current f v } = [] := by
        apply diffChanges_eq_nil
        intro k' hk'
        rw [modelUpd_original, modelUpd_current, dictGet_dSet,
          if_neg (show ¬ f = k' from fun h => hnd.1 (by rw [h]; exact hk')), horig]
      rw [htail]
    · rw [dictGet_dSet, if_neg hfk, hget k, if_pos rfl]
      have hmem : f ∈ rest := by
        rcases List.mem_cons.1 hf with h | h
        · exact absurd h hfk
        · exact h
      exact ih hnd.2 hmem

/-- The entity built the way `ChangeLog.__init__` builds one: the field is
assigned only *after* `super().__init__` has captured the original state. -/
def clModel : Model :=
  { classId := 0,
    original := [("_entry_id", Value.vstr "cl1")],
    current := [("_entry_id", Value.vstr "cl1"), ("x", Value.vint 5)],
    isActive := true }

/-- **Counterexample for C2.** An entity constructed in the repository's
own pattern (`ChangeLog.__init__` calls `super().__init__()` first and
assigns its declared fields afterwards) has a *non-empty* diff immediately
after construction and before any mutation: the capture inside
`BaseModel.__init__` misses every field assigned after it, so each such
field is reported as changed from `None`. -/
theorem diff_after_construction_counterexample :
    setAttrModel (baseInit 0 [] "cl1") "x" (Value.vint 5) = Except.ok clModel
  ∧ diffFn ["_entry_id", "x"] clModel
      = Except.ok [("x", Value.none, Value.vint 5)]
  ∧ ([("x", Value.none, Value.vint 5)] : List (String × Value × Value)) ≠ [] :=
  ⟨rfl, rfl, by decide⟩

/-- **C2 (amended).** For an entity whose declared fields are all captured
by `BaseModel.__init__` (i.e. assigned before `super().__init__`, so that
the captured original state equals the current state):
(1) `diff()` immediately after construction is empty;
(2) after mutating exactly one declared field `f` (not the lifecycle flag)
to a value that differs from the old one, `diff()` is exactly
`{f: (old, new)}`;
(3) comparison is value equality over the declared field names: a field
whose original and current values agree — in particular one absent from
both states — is never reported; and
(4) a field absent from the original state but present (non-`None`) in the
current state is reported as a change from `None`. -/
theorem diff_amended :
    (∀ (cid : Nat) (pre : List (String × Value)) (eid : String) (keys : List String),
      diffFn keys (baseInit cid pre eid) = Except.ok [])
  ∧ (∀ (m : Model) (keys : List String) (f : String) (v : Value),
      m.isActive = true → m.original = m.current → keys.Nodup → f ∈ keys →
      f ≠ "_is_active" → v ≠ dictGet m.current f →
      setAttrModel m f v = Except.ok { m with current := dSet m.current f v }
      ∧ diffFn keys { m with current := dSet m.current f v }
          = Except.ok [(f, dictGet m.current f, v)])
  ∧ (∀ (m : Model) (keys : List String) (k : String),
      dictGet m.original k = dictGet m.current k →
      ∀ e, e ∈ diffChanges keys m → e.1 ≠ k)
  ∧ (∀ (m : Model) (keys : List String) (k : String),
      k ∈ keys → dictGet m.original k = Value.none →
      dictGet m.current k ≠ Value.none →
      (k, Value.none, dictGet m.current k) ∈ diffChanges keys m) := by
  refine ⟨?_, ?_, ?_, ?_⟩
  · intro cid pre eid keys
    have hact : (baseInit cid pre eid).isActive = true := rfl
    rw [diffFn, if_pos hact]
    rw [diffChanges_eq_nil keys (baseInit cid pre eid) (fun k _ => rfl)]
  · intro m keys f v hact horig hnd hf hfl hne
    constructor
    · rw [setAttrModel, if_neg hfl, if_pos hact]
    · have hact' : ({ m with current := dSet m.current f v } : Model).isActive = true := hact
      rw [diffFn, if_pos hact', diffChanges_single keys m f v horig hnd hf hne]
  · intro m keys k heq e he hek
    rw [diffChanges] at he
    rcases List.mem_filterMap.1 he with ⟨k', hk'mem, hk'⟩
    by_cases hkk : dictGet m.original k' = dictGet m.current k'
    · rw [if_pos hkk] at hk'; cases hk'
    · rw [if_neg hkk] at hk'
      cases hk'
      have hek2 : k' = k := hek
      subst hek2
      exact hkk heq
  · intro m keys k hk ho hc
    rw [diffChanges]
    refine List.mem_filterMap.2 ⟨k, hk, ?_⟩
    rw [ho]
    rw [if_neg (fun h => hc h.symm)]

/-- Witness for C2's amended theorem: a freshly captured entity diffs
empty, and mutating its one declared field `"x"` from `1` to `2` diffs to
exactly that pair. -/
theorem diff_amended_witness :
    diffFn ["_entry_id", "x"] (baseInit 0 [("x", Value.vint 1)] "w1") = Except.ok []
  ∧ diffFn ["_entry_id", "x"]
      { baseInit 0 [("x", Value.vint 1)] "w1" with
        current := dSet (baseInit 0 [("x", Value.vint 1)] "w1").current "x" (Value.vint 2) }
      = Except.ok [("x", Value.vint 1, Value.vint 2)] := by
  constructor
  · exact diff_amended.1 0 [("x", Value.vint 1)] "w1" ["_entry_id", "x"]
  · have h := (diff_amended.2.1 (baseInit 0 [("x", Value.vint 1)] "w1")
      ["_entry_id", "x"] "x" (Value.vint 2) rfl rfl (by decide) (by decide)
      (by decide) (by decide)).2
    exact h

/-! ## The unit-of-work session and relationship descriptor
(`polynom/session.py`, `polynom/schema/relationship_backup.py`)

A world holds a class table (each entity type's schema field names and its
`Relationship` descriptors in class-dict order), a heap of entities
addressed by `Nat` references, the single session, and the observable
driver effects.  `relationship.py` contains an unresolved merge conflict;
`relationship_backup.py` holds the clean merged version embedded here. -/

inductive SessState where
  | initialized
  | active
  | completed
deriving DecidableEq, Repr

/-- A `Relationship` descriptor as declared on an entity class:
its attribute name, `back_populates`, and `cascade` (already defaulted to
`""` as `rel._cascade or ""` does). -/
structure RelDecl where
  key : String
  backPopulates : Option String
  cascade : String
deriving DecidableEq, Repr

/-- Per-entity-type information: `schema.entity_name`, the keys of
`schema._get_field_map()`, and the class's relationship descriptors. -/
structure ClassInfo where
  entityName : String
  fieldKeys : List String
  rels : List RelDecl
deriving DecidableEq, Repr

/-- The statements the session issues to the driver, recorded by the row
identity they target.  A change-log write records the modified entity's
identity and name plus the serialized per-field `(old, new)` pairs (the
polytype JSON converters live outside `src` and are embedded as the
identity, and the fresh-uuid `ChangeLog` row itself is never tracked, so
only this record of it is observable). -/
structure Effects where
  inserts : List Value
  updates : List Value
  deletes : List Value
  changeLogs : List (Value × String × List (String × Value × Value))
  commits : Nat
  rollbacks : Nat
deriving DecidableEq, Repr

def noEffects : Effects := ⟨[], [], [], [], 0, 0⟩

/-- The session object: `_state`, `_log_user`, and `_tracked_models`
(keyed by `_entry_id`, insertion ordered). -/
structure SessionRec where
  state : SessState
  logUser : Option String
  tracked : List (Value × Nat)
deriving DecidableEq, Repr

/-- `m` with its `__dict__` replaced (an attribute write). -/
def withCurrent (m : Model) (d : List (String × Value)) : Model :=
  ⟨m.classId, m.original, d, m.isActive⟩

/-- `m` with its `_is_active` flag replaced. -/
def withActive (m : Model) (b : Bool) : Model :=
  ⟨m.classId, m.original, m.current, b⟩

theorem withCurrent_current (m : Model) (d : List (String × Value)) :
    (withCurrent m d).current = d := rfl

theorem withCurrent_classId (m : Model) (d : List (String × Value)) :
    (withCurrent m d).classId = m.classId := rfl

theorem withCurrent_isActive (m : Model) (d : List (String × Value)) :
    (withCurrent m d).isActive = m.isActive := rfl

theorem withActive_isActive (m : Model) (b : Bool) :
    (withActive m b).isActive = b := rfl

theorem withActive_classId (m : Model) (b : Bool) :
    (withActive m b).classId = m.classId := rfl

theorem withActive_current (m : Model) (b : Bool) :
    (withActive m b).current = m.current := rfl

/-- A heap of entities plus the session and the recorded driver effects. -/
structure World where
  classes : List ClassInfo
  models : Nat → Model
  session : SessionRec
  effects : Effects

def setModel (w : World) (i : Nat) (m : Model) : World :=
  { w with models := Function.update w.models i m }

def classOf (w : World) (i : Nat) : ClassInfo :=
  w.classes.getD (w.models i).classId ⟨"", [], []⟩

/-- `model._entry_id` (stored in the instance `__dict__`). -/
def meidW (w : World) (i : Nat) : Value :=
  dictGet (w.models i).current "_entry_id"

/-- `getattr(x, attr, None)` on a heap entity: a `Relationship` descriptor
on the class intercepts the read (its `__get__` returns the internal slot,
defaulting to `None`); otherwise the instance `__dict__` is read.  Every
`getattr` in the embedded code either passes a `None` default or reads a
relationship, so an absent attribute reads as `Value.none`. -/
def getattrD (w : World) (i : Nat) (attr : String) : Value :=
  match (classOf w i).rels.find? (fun rd => rd.key = attr) with
  | Option.some rd => dictGet (w.models i).current ("_" ++ rd.key)
  | Option.none => dictGet (w.models i).current attr

/-- `Session._throw_if_not_active`: `RuntimeError` for a session used
outside its `with` block (`SessionNotActiveError` in the taxonomy) or
after completion (`SessionCompletedError`). -/
def throwIfNotActive (s : SessionRec) : Except Err Unit :=
  match s.state with
  | SessState.initialized => Except.error Err.sessionNotActive
  | SessState.completed => Except.error Err.sessionCompleted
  | SessState.active => Except.ok ()

/-- `Session._track`: if another instance is already tracked under the
model's identity, mark it inert; then map the identity to this model. -/
def track (w : World) (i : Nat) : World :=
  let eid := meidW w i
  let w1 :=
    match dFind w.session.tracked eid with
    | Option.some old => setModel w old (withActive (w.models old) false)
    | Option.none => w
  { w1 with session := { w1.session with tracked := dSet w1.session.tracked eid i } }

/-- `Session.delete`: state guard, a DELETE keyed by identity, and — when
the identity is tracked — marking the *passed* instance inert. -/
def deleteOp (w : World) (i : Nat) : Except Err World :=
  match throwIfNotActive w.session with
  | Except.error e => Except.error e
  | Except.ok _ =>
    let eid := meidW w i
    let w1 := { w with effects := { w.effects with deletes := w.effects.deletes ++ [eid] } }
    if (dFind w1.session.tracked eid).isSome then
      Except.ok (setModel w1 i (withActive (w1.models i) false))
    else Except.ok w1

/-- The mutually recursive session entry points, driven by a fuel counter
(the source recursion is unbounded across the object graph; every theorem
quantifies over sufficient fuel and concrete witnesses use small fuel). -/
inductive SessCall where
  | setAttr (i : Nat) (attr : String) (v : Value)
  | relAssign (i : Nat) (rd : RelDecl) (v : Value)
  | addModel (i : Nat) (tracking : Bool)
  | addRelated (i : Nat) (rels : List RelDecl)
  | detachChild (i : Nat) (attr : String)

/-- One interpreter for the mutually recursive operations:

* `setAttr` is `BaseModel.__setattr__`: `_is_active` always writable; any
  other write requires an active instance, then `object.__setattr__`
  dispatches to a `Relationship` data descriptor on the class if one is
  declared under that name, else writes the instance `__dict__`.
* `relAssign` is `Relationship.__set__`: identity no-op; store the value
  in the internal slot; clear the superseded instance's reciprocal when it
  still points back, with the delete-orphan cascade requesting a session
  delete; set the new instance's reciprocal unless it already points back,
  with the save-update/all cascade requesting a session add.  Reading
  attributes of a non-model old value yields the `None` default; *setting*
  an attribute on a non-model raises `AttributeError`, as do the session
  calls on it.
* `addModel` is `Session.add`: state guard, stale-instance guard
  (`ValueError`), then — when tracking — `_track` plus the cascading
  `_add_related_models` walk, and finally the INSERT.
* `addRelated` is the loop of `Session._add_related_models`.
* `detachChild` is `Session.detach_child`: state guard, `TypeError` for a
  non-relationship attribute, no-op on an unset child (`child is None`),
  clear the parent's slot, and under delete-orphan clear the child's
  back-reference (a `None` `back_populates` makes the subsequent
  `getattr(child, None, ...)` raise `TypeError`) and delete the orphan if
  the back-reference is now empty. -/
def exec : Nat → World → SessCall → Except Err World
  | 0, _, _ => Except.error Err.fuelExhausted
  | fuel + 1, w, SessCall.setAttr i attr v =>
    if attr = "_is_active" then
      Except.ok (setModel w i (withActive (w.models i) (truthy v)))
    else if (w.models i).isActive then
      match (classOf w i).rels.find? (fun rd => rd.key = attr) with
      | Option.some rd => exec fuel w (SessCall.relAssign i rd v)
      | Option.none =>
        Except.ok (setModel w i (withCurrent (w.models i) (dSet (w.models i).current attr v)))
    else Except.error Err.inertSetattr
  | fuel + 1, w, SessCall.relAssign i rd v =>
    let old := dictGet (w.models i).current ("_" ++ rd.key)
    if old = v then Except.ok w
    else
      match exec fuel w (SessCall.setAttr i ("_" ++ rd.key) v) with
      | Except.error e => Except.error e
      | Except.ok w1 =>
        let afterOld : Except Err World :=
          if truthy old && truthyStr rd.backPopulates then
            match rd.backPopulates with
            | Option.none => Except.ok w1
            | Option.some back =>
              let currentBack :=
                match old with
                | Value.ref o => getattrD w1 o back
                | _ => Value.none
              let cleared : Except Err World :=
                match old with
                | Value.ref o =>
                  if currentBack = Value.ref i then
                    exec fuel w1 (SessCall.setAttr o back Value.none)
                  else Except.ok w1
                | _ => Except.ok w1
              match cleared with
              | Except.error e => Except.error e
              | Except.ok w2 =>
                if hasSub "delete-orphan" rd.cascade
                    && truthy (getattrD w2 i "_session") then
                  match old with
                  | Value.ref o => deleteOp w2 o
                  | _ => Except.error Err.attributeError
                else Except.ok w2
          else Except.ok w1
        match afterOld with
        | Except.error e => Except.error e
        | Except.ok w2 =>
          if truthy v && truthyStr rd.backPopulates then
            match rd.backPopulates with
            | Option.none => Except.ok w2
            | Option.some back =>
              let currentBack :=
                match v with
                | Value.ref j => getattrD w2 j back
                | _ => Value.none
              let setBack : Except Err World :=
                match v with
                | Value.ref j =>
                  if currentBack = Value.ref i then Except.ok w2
                  else exec fuel w2 (SessCall.setAttr j back (Value.ref i))
                | _ => Except.error Err.attributeError
              match setBack with
              | Except.error e => Except.error e
              | Except.ok w3 =>
                if (hasSub "save-update" rd.cascade || hasSub "all" rd.cascade)
                    && truthy (getattrD w3 i "_session") then
                  match v with
                  | Value.ref j => exec fuel w3 (SessCall.addModel j true)
                  | _ => Except.error Err.attributeError
                else Except.ok w3
          else Except.ok w2
  | fuel + 1, w, SessCall.addModel i tracking =>
    match throwIfNotActive w.session with
    | Except.error e => Except.error e
    | Except.ok _ =>
      if (w.models i).isActive then
        let afterTrack : Except Err World :=
          if tracking then
            let wt := track w i
            exec fuel wt (SessCall.addRelated i (classOf wt i).rels)
          else Except.ok w
        match afterTrack with
        | Except.error e => Except.error e
        | Except.ok w1 =>
          Except.ok { w1 with effects :=
            { w1.effects with inserts := w1.effects.inserts ++ [meidW w1 i] } }
      else Except.error Err.staleEntity
  | fuel + 1, w, SessCall.addRelated i rels =>
    match rels with
    | [] => Except.ok w
    | rd :: rest =>
      if ! (hasSub "save-update" rd.cascade || hasSub "all" rd.cascade) then
        exec fuel w (SessCall.addRelated i rest)
      else
        let child := dictGet (w.models i).current ("_" ++ rd.key)
        if ! truthy child then
          exec fuel w (SessCall.addRelated i rest)
        else
          match child with
          | Value.ref j =>
            let attach : Except Err World :=
              if getattrD w j "_session" = Value.none then
                exec fuel w (SessCall.setAttr j "_session" Value.session)
              else Except.ok w
            match attach with
            | Except.error e => Except.error e
            | Except.ok w1 =>
              match exec fuel w1 (SessCall.addModel j true) with
              | Except.error e => Except.error e
              | Except.ok w2 => exec fuel w2 (SessCall.addRelated i rest)
          | _ => Except.error Err.attributeError
  | fuel + 1, w, SessCall.detachChild i attr =>
    match throwIfNotActive w.session with
    | Except.error e => Except.error e
    | Except.ok _ =>
      match (classOf w i).rels.find? (fun rd => rd.key = attr) with
      | Option.none => Except.error Err.typeError
      | Option.some rd =>
        let child := dictGet (w.models i).current ("_" ++ rd.key)
        if child = Value.none then Except.ok w
        else
          match exec fuel w (SessCall.setAttr i attr Value.none) with
          | Except.error e => Except.error e
          | Except.ok w1 =>
            if hasSub "delete-orphan" rd.cascade then
              match rd.backPopulates with
              | Option.none => Except.error Err.typeError
              | Option.some back =>
                let clearedBack : Except Err World :=
                  if back ≠ "" then
                    match child with
                    | Value.ref j => exec fuel w1 (SessCall.setAttr j back Value.none)
                    | _ => Except.error Err.attributeError
                  else Except.ok w1
                match clearedBack with
                | Except.error e => Except.error e
                | Except.ok w2 =>
                  let backNow :=
                    match child with
                    | Value.ref j => getattrD w2 j back
                    | _ => Value.none
                  if backNow = Value.none then
                    match child with
                    | Value.ref j => deleteOp w2 j
                    | _ => Except.error Err.attributeError
                  else Except.ok w2
            else Except.ok w1

def setAttrOp (fuel : Nat) (w : World) (i : Nat) (attr : String) (v : Value) :
    Except Err World :=
  exec fuel w (SessCall.setAttr i attr v)

def addOp (fuel : Nat) (w : World) (i : Nat) (tracking : Bool) : Except Err World :=
  exec fuel w (SessCall.addModel i tracking)

def detachChildOp (fuel : Nat) (w : World) (i : Nat) (attr : String) : Except Err World :=
  exec fuel w (SessCall.detachChild i attr)

/-- The per-model loop of `Session.flush` over the tracked instances in
insertion order: skip inert models; diff the active ones; on a non-empty
diff issue the UPDATE and, when `_log_user` is truthy, the change-log
write; then call `model._update_snapshot()` — a method `BaseModel` does
not define, so the loop raises `AttributeError` at the first active
model. -/
def flushModels : List Nat → World → Except Err World
  | [], w => Except.ok w
  | i :: rest, w =>
    if (w.models i).isActive then
      match diffFn (classOf w i).fieldKeys (w.models i) with
      | Except.error e => Except.error e
      | Except.ok d =>
        let _w1 :=
          if d.isEmpty then w
          else
            let wu := { w with effects :=
              { w.effects with updates := w.effects.updates ++ [meidW w i] } }
            if truthyStr wu.session.logUser then
              { wu with effects := { wu.effects with changeLogs :=
                  wu.effects.changeLogs ++ [(meidW w i, (classOf w i).entityName, d)] } }
            else wu
        Except.error Err.missingUpdateSnapshot
    else flushModels rest w

/-- `Session.flush`. -/
def flushOp (w : World) : Except Err World :=
  match throwIfNotActive w.session with
  | Except.error e => Except.error e
  | Except.ok _ => flushModels (w.session.tracked.map (·.2)) w

/-- `Session._invalidate_models`: every tracked model becomes inert. -/
def invalidateModels (w : World) : World :=
  (w.session.tracked.map (·.2)).foldl
    (fun w i => setModel w i (withActive (w.models i) false)) w

/-- `Session.commit`: guard, flush, driver commit, invalidate, complete. -/
def commitOp (w : World) : Except Err World :=
  match throwIfNotActive w.session with
  | Except.error e => Except.error e
  | Except.ok _ =>
    match flushOp w with
    | Except.error e => Except.error e
    | Except.ok w1 =>
      let w2 := { w1 with effects := { w1.effects with commits := w1.effects.commits + 1 } }
      let w3 := invalidateModels w2
      Except.ok { w3 with session := { w3.session with state := SessState.completed } }

/-- `Session.rollback`: guard, invalidate, driver rollback, complete. -/
def rollbackOp (w : World) : Except Err World :=
  match throwIfNotActive w.session with
  | Except.error e => Except.error e
  | Except.ok _ =>
    let w1 := invalidateModels w
    let w2 := { w1 with effects := { w1.effects with rollbacks := w1.effects.rollbacks + 1 } }
    Except.ok { w2 with session := { w2.session with state := SessState.completed } }

theorem setModel_models_same (w : World) (i : Nat) (m : Model) :
    (setModel w i m).models i = m := by
  rw [setModel]
  exact Function.update_same i m w.models

theorem setModel_models_ne (w : World) (i j : Nat) (m : Model) (h : j ≠ i) :
    (setModel w i m).models j = w.models j := by
  rw [setModel]
  exact Function.update_noteq h m w.models

theorem setModel_session (w : World) (i : Nat) (m : Model) :
    (setModel w i m).session = w.session := rfl

/-- **C3.** Tracking a second, active instance `b` under an identity
already mapped to a different instance `a` marks `a` inert, leaves `b`
active, stores `b` as the tracked instance for that identity, and touches
no other tracked entry — so at most one instance per identity is active
within the session's tracked set. -/
theorem track_supersedes (w : World) (a b : Nat) (eid : Value)
    (ha : dFind w.session.tracked eid = Option.some a)
    (hb : meidW w b = eid)
    (hab : a ≠ b)
    (hbact : (w.models b).isActive = true) :
    ((track w b).models a).isActive = false
  ∧ ((track w b).models b).isActive = true
  ∧ dFind (track w b).session.tracked eid = Option.some b
  ∧ (∀ eid', eid' ≠ eid →
      dFind (track w b).session.tracked eid' = dFind w.session.tracked eid') := by
  rw [track]
  rw [hb, ha]
  refine ⟨?_, ?_, ?_, ?_⟩
  · rw [setModel_models_same]
    exact withActive_isActive _ _
  · rw [setModel_models_ne w a b _ (fun h => hab h.symm)]
    exact hbact
  · rw [setModel_session]
    exact dFind_dSet_same _ _ _
  · intro eid' hne
    rw [setModel_session]
    exact dFind_dSet_ne _ _ _ _ (fun h => hne h.symm)

/-- Witness world for the tracking theorems: an active session tracking
model `0` (identity `"e1"`), with an untracked second instance at `1`
carrying the same identity. -/
def wTrack : World :=
  { classes := [⟨"user", ["_entry_id"], []⟩],
    models := fun i => if i = 1 then baseInit 0 [] "e1" else baseInit 0 [] "e1",
    session := ⟨SessState.active, Option.none, [(Value.vstr "e1", 0)]⟩,
    effects := noEffects }

/-- Witness for C3 at the concrete two-instance world. -/
theorem track_supersedes_witness :
    ((track wTrack 1).models 0).isActive = false
  ∧ ((track wTrack 1).models 1).isActive = true
  ∧ dFind (track wTrack 1).session.tracked (Value.vstr "e1") = Option.some 1 :=
  ⟨(track_supersedes wTrack 0 1 (Value.vstr "e1") rfl rfl (by decide) rfl).1,
   (track_supersedes wTrack 0 1 (Value.vstr "e1") rfl rfl (by decide) rfl).2.1,
   (track_supersedes wTrack 0 1 (Value.vstr "e1") rfl rfl (by decide) rfl).2.2.1⟩

theorem throwIfNotActive_active {s : SessionRec} (h : s.state = SessState.active) :
    throwIfNotActive s = Except.ok () := by
  rw [throwIfNotActive, h]

/-- **C10.** Re-adding an entity `e` that is already the tracked instance
for its identity re-tracks that very object: `_track` finds `e` itself
under the identity, marks it inert, and maps the identity back to `e` —
so after a second `s.add(e)` the call succeeds but `e` is inert while
still being the mapped instance, and every further field mutation on it
fails with the "no longer mapped" `AttributeError`. -/
theorem add_retrack_inerts (f : Nat) (w : World) (e : Nat) (eid : Value)
    (hstate : w.session.state = SessState.active)
    (hact : (w.models e).isActive = true)
    (ha : dFind w.session.tracked eid = Option.some e)
    (hb : meidW w e = eid)
    (hrels : (classOf w e).rels = []) :
    ∃ w', addOp (f + 2) w e true = Except.ok w'
      ∧ (w'.models e).isActive = false
      ∧ dFind w'.session.tracked eid = Option.some e
      ∧ (∀ (g : Nat) (attr : String) (v : Value), attr ≠ "_is_active" →
          exec (g + 1) w' (SessCall.setAttr e attr v) = Except.error Err.inertSetattr) := by
  have hthrow : throwIfNotActive w.session = Except.ok () := throwIfNotActive_active hstate
  have hmodels : (track w e).models
      = Function.update w.models e (withActive (w.models e) false) := by
    rw [track, hb, ha]
    rfl
  have hme : (track w e).models e = withActive (w.models e) false := by
    rw [hmodels]
    exact Function.update_same _ _ _
  have htracked : (track w e).session.tracked = dSet w.session.tracked eid e := by
    rw [track, hb, ha]
    rfl
  have hclasses : (track w e).classes = w.classes := by
    rw [track, hb, ha]
    rfl
  have hclassOf : classOf (track w e) e = classOf w e := by
    rw [classOf, classOf, hclasses, hme, withActive_classId]
  have hrelated : exec (f + 1) (track w e)
      (SessCall.addRelated e (classOf (track w e) e).rels) = Except.ok (track w e) := by
    rw [hclassOf, hrels]
    rfl
  refine ⟨{ track w e with effects := { (track w e).effects with
      inserts := (track w e).effects.inserts ++ [meidW (track w e) e] } }, ?_, ?_, ?_, ?_⟩
  · show exec ((f + 1) + 1) w (SessCall.addModel e true) = _
    simp only [exec]
    rw [hthrow, hact]
    simp only [if_true, if_pos]
    rw [hclassOf, hrels]
  · show ((track w e).models e).isActive = false
    rw [hme]
    exact withActive_isActive _ _
  · show dFind (track w e).session.tracked eid = Option.some e
    rw [htracked]
    exact dFind_dSet_same _ _ _
  · intro g attr v hne
    simp only [exec]
    rw [if_neg hne]
    have : (({ track w e with effects := { (track w e).effects with
        inserts := (track w e).effects.inserts ++ [meidW (track w e) e] } } : World).models e).isActive
        = false := by
      show ((track w e).models e).isActive = false
      rw [hme]
      exact withActive_isActive _ _
    rw [this]
    simp

/-- Witness for C10 at the concrete world: re-adding the already-tracked
instance `0` succeeds yet leaves it inert and still mapped. -/
theorem add_retrack_inerts_witness :
    ∃ w', addOp 2 wTrack 0 true = Except.ok w'
      ∧ (w'.models 0).isActive = false
      ∧ dFind w'.session.tracked (Value.vstr "e1") = Option.some 0 := by
  obtain ⟨w', h1, h2, h3, _⟩ :=
    add_retrack_inerts 0 wTrack 0 (Value.vstr "e1") rfl rfl rfl rfl rfl
  exact ⟨w', h1, h2, h3⟩

theorem throwIfNotActive_initialized {s : SessionRec}
    (h : s.state = SessState.initialized) :
    throwIfNotActive s = Except.error Err.sessionNotActive := by
  rw [throwIfNotActive, h]

theorem throwIfNotActive_completed {s : SessionRec}
    (h : s.state = SessState.completed) :
    throwIfNotActive s = Except.error Err.sessionCompleted := by
  rw [throwIfNotActive, h]

/-- **C8.** Every mutating session operation — `add`, `delete`, `flush`,
`commit`, `rollback`, `detach_child` — checks the session state first:
from `Initialized` it fails with the `SessionNotActiveError`
(`RuntimeError: must first be activated`), from `Completed` with the
`SessionCompletedError` (`RuntimeError: completed Session`); only the
`Active` state passes the `_throw_if_not_active` guard. -/
theorem session_state_guard (w : World) (f i : Nat) (attr : String)
    (tracking : Bool) :
    (w.session.state = SessState.initialized →
      addOp (f + 1) w i tracking = Except.error Err.sessionNotActive
      ∧ deleteOp w i = Except.error Err.sessionNotActive
      ∧ flushOp w = Except.error Err.sessionNotActive
      ∧ commitOp w = Except.error Err.sessionNotActive
      ∧ rollbackOp w = Except.error Err.sessionNotActive
      ∧ detachChildOp (f + 1) w i attr = Except.error Err.sessionNotActive)
  ∧ (w.session.state = SessState.completed →
      addOp (f + 1) w i tracking = Except.error Err.sessionCompleted
      ∧ deleteOp w i = Except.error Err.sessionCompleted
      ∧ flushOp w = Except.error Err.sessionCompleted
      ∧ commitOp w = Except.error Err.sessionCompleted
      ∧ rollbackOp w = Except.error Err.sessionCompleted
      ∧ detachChildOp (f + 1) w i attr = Except.error Err.sessionCompleted)
  ∧ (w.session.state = SessState.active →
      throwIfNotActive w.session = Except.ok ()) := by
  refine ⟨?_, ?_, fun h => throwIfNotActive_active h⟩
  · intro h
    have hthrow := throwIfNotActive_initialized h
    refine ⟨?_, ?_, ?_, ?_, ?_, ?_⟩
    · show exec (f + 1) w (SessCall.addModel i tracking) = _
      simp only [exec]
      rw [hthrow]
    · rw [deleteOp, hthrow]
    · rw [flushOp, hthrow]
    · rw [commitOp, hthrow]
    · rw [rollbackOp, hthrow]
    · show exec (f + 1) w (SessCall.detachChild i attr) = _
      simp only [exec]
      rw [hthrow]
  · intro h
    have hthrow := throwIfNotActive_completed h
    refine ⟨?_, ?_, ?_, ?_, ?_, ?_⟩
    · show exec (f + 1) w (SessCall.addModel i tracking) = _
      simp only [exec]
      rw [hthrow]
    · rw [deleteOp, hthrow]
    · rw [flushOp, hthrow]
    · rw [commitOp, hthrow]
    · rw [rollbackOp, hthrow]
    · show exec (f + 1) w (SessCall.detachChild i attr) = _
      simp only [exec]
      rw [hthrow]

/-- An initialized-state and a completed-state session world for the C8
witness. -/
def wInit : World :=
  { classes := [⟨"user", ["_entry_id"], []⟩],
    models := fun _ => baseInit 0 [] "e1",
    session := ⟨SessState.initialized, Option.none, []⟩,
    effects := noEffects }

def wDone : World :=
  { classes := [⟨"user", ["_entry_id"], []⟩],
    models := fun _ => baseInit 0 [] "e1",
    session := ⟨SessState.completed, Option.none, []⟩,
    effects := noEffects }

/-- Witness for C8 at concrete worlds in both non-active states. -/
theorem session_state_guard_witness :
    addOp 1 wInit 0 true = Except.error Err.sessionNotActive
  ∧ commitOp wInit = Except.error Err.sessionNotActive
  ∧ addOp 1 wDone 0 true = Except.error Err.sessionCompleted
  ∧ rollbackOp wDone = Except.error Err.sessionCompleted :=
  ⟨((session_state_guard wInit 0 0 "x" true).1 rfl).1,
   ((session_state_guard wInit 0 0 "x" true).1 rfl).2.2.2.1,
   ((session_state_guard wDone 0 0 "x" true).2.1 rfl).1,
   ((session_state_guard wDone 0 0 "x" true).2.1 rfl).2.2.2.2.1⟩

/-- An active session tracking one active, clean entity (index `0`,
identity `"e1"`, no audit actor), and the same session with an empty
tracked map. -/
def wFlush : World :=
  { classes := [⟨"user", ["_entry_id"], []⟩],
    models := fun _ => baseInit 0 [] "e1",
    session := ⟨SessState.active, Option.none, [(Value.vstr "e1", 0)]⟩,
    effects := noEffects }

def wFlushEmpty : World :=
  { classes := [⟨"user", ["_entry_id"], []⟩],
    models := fun _ => baseInit 0 [] "e1",
    session := ⟨SessState.active, Option.none, []⟩,
    effects := noEffects }

/-- **C4 (code bug).** For every tracked, still-active entity,
`Session.flush` ends its loop body with `model._update_snapshot()` — but
`BaseModel` defines no `_update_snapshot` method (the only occurrence in
the tree is this call site, `session.py:203`), so flush raises
`AttributeError` as soon as one active tracked entity exists, even one
with an empty diff; only a flush that skips every entity (none tracked,
or all inert) succeeds.  The claimed behaviour — update iff the diff is
non-empty, change-log write iff additionally an actor is configured,
activity untouched — is unreachable for any active tracked entity. -/
theorem flush_missing_update_snapshot :
    flushOp wFlush = Except.error Err.missingUpdateSnapshot
  ∧ flushOp wFlushEmpty = Except.ok wFlushEmpty :=
  ⟨rfl, rfl⟩

/-- **C5 (code bug).** `commit()` flushes first, so on any session with an
active tracked entity it dies in the same missing-`_update_snapshot`
`AttributeError` before committing, invalidating, or completing anything.
`rollback()` does behave as claimed: it marks the tracked entity inert,
records the driver rollback, moves the session to `Completed`, after
which field mutation on the entity fails with the "no longer mapped"
`AttributeError` and both `commit()` and `rollback()` fail with the
`SessionCompletedError` — `Completed` is terminal. -/
theorem commit_flush_code_bug :
    commitOp wFlush = Except.error Err.missingUpdateSnapshot
  ∧ (rollbackOp wFlush).map
      (fun w' => ((w'.models 0).isActive, w'.session.state, w'.effects.rollbacks))
      = Except.ok (false, SessState.completed, 1)
  ∧ (rollbackOp wFlush >>= fun w' =>
      exec 1 w' (SessCall.setAttr 0 "username" (Value.vstr "x")))
      = Except.error Err.inertSetattr
  ∧ (rollbackOp wFlush >>= fun w' => commitOp w') = Except.error Err.sessionCompleted
  ∧ (rollbackOp wFlush >>= fun w' => rollbackOp w') = Except.error Err.sessionCompleted :=
  ⟨rfl, rfl, rfl, rfl, rfl⟩

theorem exec_setAttr_plain (f : Nat) (w : World) (i : Nat) (attr : String) (v : Value)
    (hne : attr ≠ "_is_active")
    (hact : (w.models i).isActive = true)
    (hrel : (classOf w i).rels.find? (fun rd => rd.key = attr) = Option.none) :
    exec (f + 1) w (SessCall.setAttr i attr v)
      = Except.ok (setModel w i
          (withCurrent (w.models i) (dSet (w.models i).current attr v))) := by
  simp only [exec]
  rw [if_neg hne, if_pos hact, hrel]

theorem exec_setAttr_rel (f : Nat) (w : World) (i : Nat) (attr : String) (v : Value)
    (rd : RelDecl)
    (hne : attr ≠ "_is_active")
    (hact : (w.models i).isActive = true)
    (hrel : (classOf w i).rels.find? (fun r => r.key = attr) = Option.some rd) :
    exec (f + 1) w (SessCall.setAttr i attr v) = exec f w (SessCall.relAssign i rd v) := by
  simp only [exec]
  rw [if_neg hne, if_pos hact, hrel]

theorem setModel_classes (w : World) (i : Nat) (m : Model) :
    (setModel w i m).classes = w.classes := rfl

theorem classOf_setModel_keep (w : World) (i j : Nat) (m : Model)
    (hcid : m.classId = (w.models i).classId) :
    classOf (setModel w i m) j = classOf w j := by
  rw [classOf, classOf, setModel_classes]
  by_cases h : j = i
  · subst h
    rw [setModel_models_same, hcid]
  · rw [setModel_models_ne w i j m h]

theorem exec_setAttr_plain_pos (fuel : Nat) (hpos : 0 < fuel) (w : World) (i : Nat)
    (attr : String) (v : Value)
    (hne : attr ≠ "_is_active")
    (hact : (w.models i).isActive = true)
    (hrel : (classOf w i).rels.find? (fun rd => rd.key = attr) = Option.none) :
    exec fuel w (SessCall.setAttr i attr v)
      = Except.ok (setModel w i
          (withCurrent (w.models i) (dSet (w.models i).current attr v))) := by
  cases fuel with
  | zero => exact absurd hpos (by omega)
  | succ n => exact exec_setAttr_plain n w i attr v hne hact hrel

/-- `Relationship.__set__` on an instance whose slot is unset (`old` is
`None`), assigning a model reference whose reciprocal attribute is a plain
attribute not yet pointing back: the internal slot and the reciprocal are
both set, and with no truthy `_session` on the owner no cascade fires. -/
theorem relAssign_fresh (f : Nat) (w : World) (c j : Nat) (key back cas : String)
    (hcj : c ≠ j)
    (hactc : (w.models c).isActive = true)
    (hactj : (w.models j).isActive = true)
    (hold : dictGet (w.models c).current ("_" ++ key) = Value.none)
    (hintne : ("_" ++ key) ≠ "_is_active")
    (hbackne : back ≠ "_is_active")
    (hbackstr : back ≠ "")
    (hkeysess : ("_" ++ key) ≠ "_session")
    (hrelintC : (classOf w c).rels.find? (fun r => r.key = ("_" ++ key)) = Option.none)
    (hrelsessC : (classOf w c).rels.find? (fun r => r.key = "_session") = Option.none)
    (hrelbackJ : (classOf w j).rels.find? (fun r => r.key = back) = Option.none)
    (hsess : dictGet (w.models c).current "_session" = Value.none)
    (hbackj : dictGet (w.models j).current back ≠ Value.ref c) :
    exec (f + 3) w (SessCall.relAssign c ⟨key, Option.some back, cas⟩ (Value.ref j))
      = Except.ok (setModel (setModel w c
          (withCurrent (w.models c) (dSet (w.models c).current ("_" ++ key) (Value.ref j)))) j
          (withCurrent (w.models j) (dSet (w.models j).current back (Value.ref c)))) := by
  have hpos : 0 < f + 2 := by omega
  have hW1 : exec (f + 2) w (SessCall.setAttr c ("_" ++ key) (Value.ref j))
      = Except.ok (setModel w c
          (withCurrent (w.models c) (dSet (w.models c).current ("_" ++ key) (Value.ref j)))) :=
    exec_setAttr_plain_pos (f + 2) hpos w c _ _ hintne hactc hrelintC
  have hW1j : (setModel w c
      (withCurrent (w.models c) (dSet (w.models c).current ("_" ++ key) (Value.ref j)))).models j
      = w.models j := setModel_models_ne w c j _ (fun h => hcj h.symm)
  have hclW1 : ∀ i, classOf (setModel w c
      (withCurrent (w.models c) (dSet (w.models c).current ("_" ++ key) (Value.ref j)))) i
      = classOf w i := fun i => classOf_setModel_keep w c i _ rfl
  have hgetbackj : getattrD (setModel w c
      (withCurrent (w.models c) (dSet (w.models c).current ("_" ++ key) (Value.ref j)))) j back
      = dictGet (w.models j).current back := by
    rw [getattrD, hclW1 j, hrelbackJ, hW1j]
  have hW2 : exec (f + 2) (setModel w c
      (withCurrent (w.models c) (dSet (w.models c).current ("_" ++ key) (Value.ref j))))
      (SessCall.setAttr j back (Value.ref c))
      = Except.ok (setModel (setModel w c
          (withCurrent (w.models c) (dSet (w.models c).current ("_" ++ key) (Value.ref j)))) j
          (withCurrent (w.models j) (dSet (w.models j).current back (Value.ref c)))) := by
    have := exec_setAttr_plain_pos (f + 2) hpos (setModel w c
      (withCurrent (w.models c) (dSet (w.models c).current ("_" ++ key) (Value.ref j))))
      j back (Value.ref c) hbackne (by rw [hW1j]; exact hactj)
      (by rw [hclW1 j]; exact hrelbackJ)
    rw [this, hW1j]
  have hsessW2 : getattrD (setModel (setModel w c
      (withCurrent (w.models c) (dSet (w.models c).current ("_" ++ key) (Value.ref j)))) j
      (withCurrent (w.models j) (dSet (w.models j).current back (Value.ref c)))) c "_session"
      = Value.none := by
    rw [getattrD]
    rw [classOf_setModel_keep _ j c _ (by rw [hW1j]; rfl), hclW1 c, hrelsessC]
    rw [setModel_models_ne _ j c _ hcj, setModel_models_same]
    show dictGet (dSet (w.models c).current ("_" ++ key) (Value.ref j)) "_session" = Value.none
    rw [dictGet_dSet, if_neg hkeysess]
    exact hsess
  have hbs : truthyStr (Option.some back) = true := by
    simp [truthyStr, hbackstr]
  show exec ((f + 2) + 1) w _ = _
  generalize hg : f + 2 = g at hW1 hW2 ⊢
  simp only [exec]
  rw [hold]
  simp only [reduceCtorEq, if_false, truthy, Bool.false_and, if_neg,
    hW1, hbs, Bool.true_and, hgetbackj]
  simp only [if_neg hbackj, hW2, hsessW2, truthy, Bool.and_false, if_false]
  simp

/-- `Relationship.__set__` assigning a value identical (by object
identity) to the current one is a no-op: the world is unchanged. -/
theorem relAssign_noop (f : Nat) (w : World) (c : Nat) (rd : RelDecl) (v : Value)
    (hold : dictGet (w.models c).current ("_" ++ rd.key) = v) :
    exec (f + 1) w (SessCall.relAssign c rd v) = Except.ok w := by
  simp only [exec]
  rw [hold, if_pos rfl]

/-- `Relationship.__set__` assigning `None` over a model reference whose
reciprocal still points back: the internal slot and the superseded
instance's reciprocal are both cleared. -/
theorem relAssign_clear (f : Nat) (w : World) (c o : Nat) (key back cas : String)
    (hco : c ≠ o)
    (hactc : (w.models c).isActive = true)
    (hacto : (w.models o).isActive = true)
    (hold : dictGet (w.models c).current ("_" ++ key) = Value.ref o)
    (hintne : ("_" ++ key) ≠ "_is_active")
    (hbackne : back ≠ "_is_active")
    (hbackstr : back ≠ "")
    (hkeysess : ("_" ++ key) ≠ "_session")
    (hrelintC : (classOf w c).rels.find? (fun r => r.key = ("_" ++ key)) = Option.none)
    (hrelsessC : (classOf w c).rels.find? (fun r => r.key = "_session") = Option.none)
    (hrelbackO : (classOf w o).rels.find? (fun r => r.key = back) = Option.none)
    (hsess : dictGet (w.models c).current "_session" = Value.none)
    (hbacko : dictGet (w.models o).current back = Value.ref c) :
    exec (f + 3) w (SessCall.relAssign c ⟨key, Option.some back, cas⟩ Value.none)
      = Except.ok (setModel (setModel w c
          (withCurrent (w.models c) (dSet (w.models c).current ("_" ++ key) Value.none))) o
          (withCurrent (w.models o) (dSet (w.models o).current back Value.none))) := by
  have hpos : 0 < f + 2 := by omega
  have hW1 : exec (f + 2) w (SessCall.setAttr c ("_" ++ key) Value.none)
      = Except.ok (setModel w c
          (withCurrent (w.models c) (dSet (w.models c).current ("_" ++ key) Value.none))) :=
    exec_setAttr_plain_pos (f + 2) hpos w c _ _ hintne hactc hrelintC
  have hW1o : (setModel w c
      (withCurrent (w.models c) (dSet (w.models c).current ("_" ++ key) Value.none))).models o
      = w.models o := setModel_models_ne w c o _ (fun h => hco h.symm)
  have hclW1 : ∀ i, classOf (setModel w c
      (withCurrent (w.models c) (dSet (w.models c).current ("_" ++ key) Value.none))) i
      = classOf w i := fun i => classOf_setModel_keep w c i _ rfl
  have hgetbacko : getattrD (setModel w c
      (withCurrent (w.models c) (dSet (w.models c).current ("_" ++ key) Value.none))) o back
      = Value.ref c := by
    rw [getattrD, hclW1 o, hrelbackO, hW1o]
    exact hbacko
  have hW2 : exec (f + 2) (setModel w c
      (withCurrent (w.models c) (dSet (w.models c).current ("_" ++ key) Value.none)))
      (SessCall.setAttr o back Value.none)
      = Except.ok (setModel (setModel w c
          (withCurrent (w.models c) (dSet (w.models c).current ("_" ++ key) Value.none))) o
          (withCurrent (w.models o) (dSet (w.models o).current back Value.none))) := by
    have := exec_setAttr_plain_pos (f + 2) hpos (setModel w c
      (withCurrent (w.models c) (dSet (w.models c).current ("_" ++ key) Value.none)))
      o back Value.none hbackne (by rw [hW1o]; exact hacto)
      (by rw [hclW1 o]; exact hrelbackO)
    rw [this, hW1o]
  have hsessW2 : getattrD (setModel (setModel w c
      (withCurrent (w.models c) (dSet (w.models c).current ("_" ++ key) Value.none))) o
      (withCurrent (w.models o) (dSet (w.models o).current back Value.none))) c "_session"
      = Value.none := by
    rw [getattrD]
    rw [classOf_setModel_keep _ o c _ (by rw [hW1o]; rfl), hclW1 c, hrelsessC]
    rw [setModel_models_ne _ o c _ hco, setModel_models_same]
    show dictGet (dSet (w.models c).current ("_" ++ key) Value.none) "_session" = Value.none
    rw [dictGet_dSet, if_neg hkeysess]
    exact hsess
  have hbs : truthyStr (Option.some back) = true := by
    simp [truthyStr, hbackstr]
  show exec ((f + 2) + 1) w _ = _
  generalize hg : f + 2 = g at hW1 hW2 ⊢
  simp only [exec]
  rw [hold]
  simp only [reduceCtorEq, if_false, truthy, Bool.true_and, hbs, hW1, hgetbacko,
    Bool.false_and]
  simp only [hW2, if_true]
  rw [hsessW2]
  simp

/-- `Relationship.__set__` replacing one model reference by another: the
internal slot moves to the new target, the superseded instance's
reciprocal is cleared, and the new target's reciprocal is set. -/
theorem relAssign_switch (f : Nat) (w : World) (c o j : Nat) (key back cas : String)
    (hco : c ≠ o) (hcj : c ≠ j) (hoj : o ≠ j)
    (hactc : (w.models c).isActive = true)
    (hacto : (w.models o).isActive = true)
    (hactj : (w.models j).isActive = true)
    (hold : dictGet (w.models c).current ("_" ++ key) = Value.ref o)
    (hintne : ("_" ++ key) ≠ "_is_active")
    (hbackne : back ≠ "_is_active")
    (hbackstr : back ≠ "")
    (hkeysess : ("_" ++ key) ≠ "_session")
    (hrelintC : (classOf w c).rels.find? (fun r => r.key = ("_" ++ key)) = Option.none)
    (hrelsessC : (classOf w c).rels.find? (fun r => r.key = "_session") = Option.none)
    (hrelbackO : (classOf w o).rels.find? (fun r => r.key = back) = Option.none)
    (hrelbackJ : (classOf w j).rels.find? (fun r => r.key = back) = Option.none)
    (hsess : dictGet (w.models c).current "_session" = Value.none)
    (hbacko : dictGet (w.models o).current back = Value.ref c)
    (hbackj : dictGet (w.models j).current back ≠ Value.ref c)
    (hoj2 : Value.ref o ≠ Value.ref j) :
    exec (f + 3) w (SessCall.relAssign c ⟨key, Option.some back, cas⟩ (Value.ref j))
      = Except.ok (setModel (setModel (setModel w c
          (withCurrent (w.models c) (dSet (w.models c).current ("_" ++ key) (Value.ref j)))) o
          (withCurrent (w.models o) (dSet (w.models o).current back Value.none))) j
          (withCurrent (w.models j) (dSet (w.models j).current back (Value.ref c)))) := by
  have hpos : 0 < f + 2 := by omega
  have hW1 : exec (f + 2) w (SessCall.setAttr c ("_" ++ key) (Value.ref j))
      = Except.ok (setModel w c
          (withCurrent (w.models c) (dSet (w.models c).current ("_" ++ key) (Value.ref j)))) :=
    exec_setAttr_plain_pos (f + 2) hpos w c _ _ hintne hactc hrelintC
  have hW1o : (setModel w c
      (withCurrent (w.models c) (dSet (w.models c).current ("_" ++ key) (Value.ref j)))).models o
      = w.models o := setModel_models_ne w c o _ (fun h => hco h.symm)
  have hclW1 : ∀ i, classOf (setModel w c
      (withCurrent (w.models c) (dSet (w.models c).current ("_" ++ key) (Value.ref j)))) i
      = classOf w i := fun i => classOf_setModel_keep w c i _ rfl
  have hgetbacko : getattrD (setModel w c
      (withCurrent (w.models c) (dSet (w.models c).current ("_" ++ key) (Value.ref j)))) o back
      = Value.ref c := by
    rw [getattrD, hclW1 o, hrelbackO, hW1o]
    exact hbacko
  have hW2 : exec (f + 2) (setModel w c
      (withCurrent (w.models c) (dSet (w.models c).current ("_" ++ key) (Value.ref j))))
      (SessCall.setAttr o back Value.none)
      = Except.ok (setModel (setModel w c
          (withCurrent (w.models c) (dSet (w.models c).current ("_" ++ key) (Value.ref j)))) o
          (withCurrent (w.models o) (dSet (w.models o).current back Value.none))) := by
    have := exec_setAttr_plain_pos (f + 2) hpos (setModel w c
      (withCurrent (w.models c) (dSet (w.models c).current ("_" ++ key) (Value.ref j))))
      o back Value.none hbackne (by rw [hW1o]; exact hacto)
      (by rw [hclW1 o]; exact hrelbackO)
    rw [this, hW1o]
  have hW2j : (setModel (setModel w c
      (withCurrent (w.models c) (dSet (w.models c).current ("_" ++ key) (Value.ref j)))) o
      (withCurrent (w.models o) (dSet (w.models o).current back Value.none))).models j
      = w.models j := by
    rw [setModel_models_ne _ o j _ (fun h => hoj h.symm)]
    rw [setModel_models_ne w c j _ (fun h => hcj h.symm)]
  have hclW2 : ∀ i, classOf (setModel (setModel w c
      (withCurrent (w.models c) (dSet (w.models c).current ("_" ++ key) (Value.ref j)))) o
      (withCurrent (w.models o) (dSet (w.models o).current back Value.none))) i
      = classOf w i := by
    intro i
    rw [classOf_setModel_keep _ o i _ (by rw [hW1o]; rfl), hclW1 i]
  have hgetbackj : getattrD (setModel (setModel w c
      (withCurrent (w.models c) (dSet (w.models c).current ("_" ++ key) (Value.ref j)))) o
      (withCurrent (w.models o) (dSet (w.models o).current back Value.none))) j back
      = dictGet (w.models j).current back := by
    rw [getattrD, hclW2 j, hrelbackJ, hW2j]
  have hW3 : exec (f + 2) (setModel (setModel w c
      (withCurrent (w.models c) (dSet (w.models c).current ("_" ++ key) (Value.ref j)))) o
      (withCurrent (w.models o) (dSet (w.models o).current back Value.none)))
      (SessCall.setAttr j back (Value.ref c))
      = Except.ok (setModel (setModel (setModel w c
          (withCurrent (w.models c) (dSet (w.models c).current ("_" ++ key) (Value.ref j)))) o
          (withCurrent (w.models o) (dSet (w.models o).current back Value.none))) j
          (withCurrent (w.models j) (dSet (w.models j).current back (Value.ref c)))) := by
    have := exec_setAttr_plain_pos (f + 2) hpos (setModel (setModel w c
      (withCurrent (w.models c) (dSet (w.models c).current ("_" ++ key) (Value.ref j)))) o
      (withCurrent (w.models o) (dSet (w.models o).current back Value.none)))
      j back (Value.ref c) hbackne (by rw [hW2j]; exact hactj)
      (by rw [hclW2 j]; exact hrelbackJ)
    rw [this, hW2j]
  have hsessW3 : getattrD (setModel (setModel (setModel w c
      (withCurrent (w.models c) (dSet (w.models c).current ("_" ++ key) (Value.ref j)))) o
      (withCurrent (w.models o) (dSet (w.models o).current back Value.none))) j
      (withCurrent (w.models j) (dSet (w.models j).current back (Value.ref c)))) c "_session"
      = Value.none := by
    rw [getattrD]
    rw [classOf_setModel_keep _ j c _ (by rw [hW2j]; rfl), hclW2 c, hrelsessC]
    rw [setModel_models_ne _ j c _ hcj, setModel_models_ne _ o c _ hco, setModel_models_same]
    show dictGet (dSet (w.models c).current ("_" ++ key) (Value.ref j)) "_session" = Value.none
    rw [dictGet_dSet, if_neg hkeysess]
    exact hsess
  have hsessW2 : getattrD (setModel (setModel w c
      (withCurrent (w.models c) (dSet (w.models c).current ("_" ++ key) (Value.ref j)))) o
      (withCurrent (w.models o) (dSet (w.models o).current back Value.none))) c "_session"
      = Value.none := by
    rw [getattrD, hclW2 c, hrelsessC]
    rw [setModel_models_ne _ o c _ hco, setModel_models_same]
    show dictGet (dSet (w.models c).current ("_" ++ key) (Value.ref j)) "_session" = Value.none
    rw [dictGet_dSet, if_neg hkeysess]
    exact hsess
  have hbs : truthyStr (Option.some back) = true := by
    simp [truthyStr, hbackstr]
  show exec ((f + 2) + 1) w _ = _
  generalize hg : f + 2 = g at hW1 hW2 hW3 ⊢
  simp only [exec]
  rw [hold]
  rw [if_neg hoj2]
  simp only [truthy, Bool.true_and, hbs, hW1, hgetbacko]
  simp only [hW2, if_true]
  rw [hsessW2]
  simp only [truthy, Bool.and_false, Bool.false_and, if_false, hgetbackj,
    if_neg hbackj, hW3, if_true, Bool.false_eq_true]
  rw [hsessW3]
  simp

/-- **C6.** For assignment through a `Relationship` descriptor declared
under `key` with reciprocal attribute `back` (a plain attribute on the
target classes) and any cascade, on active entities with no session
attached to the owner: assigning `child.key = p` sets the internal slot to
`p` and `p`'s reciprocal to `child`; assigning the identical reference
again is a no-op (the world is unchanged); reassigning to `None` clears
both the slot and `p`'s reciprocal; reassigning to `q` moves the slot to
`q`, clears `p`'s reciprocal (no trace left in `p`), and sets `q`'s
reciprocal to `child`.  Identity is reference equality, as in the
source's `old_value is value` test. -/
theorem relationship_assignment (f : Nat) (w : World) (c p q : Nat)
    (key back cas : String)
    (hcp : c ≠ p) (hcq : c ≠ q) (hpq : p ≠ q)
    (hkeyne : key ≠ "_is_active")
    (hintne : ("_" ++ key) ≠ "_is_active")
    (hkeysess : ("_" ++ key) ≠ "_session")
    (hbackne : back ≠ "_is_active")
    (hbackstr : back ≠ "")
    (hactc : (w.models c).isActive = true)
    (hactp : (w.models p).isActive = true)
    (hactq : (w.models q).isActive = true)
    (hrelc : (classOf w c).rels.find? (fun r => r.key = key)
        = Option.some ⟨key, Option.some back, cas⟩)
    (hrelintC : (classOf w c).rels.find? (fun r => r.key = ("_" ++ key)) = Option.none)
    (hrelsessC : (classOf w c).rels.find? (fun r => r.key = "_session") = Option.none)
    (hrelbackP : (classOf w p).rels.find? (fun r => r.key = back) = Option.none)
    (hrelbackQ : (classOf w q).rels.find? (fun r => r.key = back) = Option.none)
    (hsess : dictGet (w.models c).current "_session" = Value.none)
    (hpar : dictGet (w.models c).current ("_" ++ key) = Value.none)
    (hbp : dictGet (w.models p).current back = Value.none)
    (hbq : dictGet (w.models q).current back = Value.none) :
    ∃ wA, setAttrOp (f + 4) w c key (Value.ref p) = Except.ok wA
      ∧ dictGet (wA.models c).current ("_" ++ key) = Value.ref p
      ∧ dictGet (wA.models p).current back = Value.ref c
      ∧ setAttrOp (f + 4) wA c key (Value.ref p) = Except.ok wA
      ∧ (∃ wB, setAttrOp (f + 4) wA c key Value.none = Except.ok wB
          ∧ dictGet (wB.models c).current ("_" ++ key) = Value.none
          ∧ dictGet (wB.models p).current back = Value.none)
      ∧ (∃ wC, setAttrOp (f + 4) wA c key (Value.ref q) = Except.ok wC
          ∧ dictGet (wC.models c).current ("_" ++ key) = Value.ref q
          ∧ dictGet (wC.models p).current back = Value.none
          ∧ dictGet (wC.models q).current back = Value.ref c) := by
  have hpc : p ≠ c := fun h => hcp h.symm
  have hqc : q ≠ c := fun h => hcq h.symm
  have hqp : q ≠ p := fun h => hpq h.symm
  have hbackp_ne : dictGet (w.models p).current back ≠ Value.ref c := by
    rw [hbp]
    exact fun h => Value.noConfusion h
  set wA : World := setModel (setModel w c (withCurrent (w.models c)
      (dSet (w.models c).current ("_" ++ key) (Value.ref p)))) p
      (withCurrent (w.models p) (dSet (w.models p).current back (Value.ref c))) with hwA
  have hwAc : wA.models c = withCurrent (w.models c)
      (dSet (w.models c).current ("_" ++ key) (Value.ref p)) := by
    rw [hwA, setModel_models_ne _ p c _ hcp, setModel_models_same]
  have hwAp : wA.models p = withCurrent (w.models p)
      (dSet (w.models p).current back (Value.ref c)) := by
    rw [hwA, setModel_models_same]
  have hwAq : wA.models q = w.models q := by
    rw [hwA, setModel_models_ne _ p q _ hqp, setModel_models_ne w c q _ hqc]
  have hclA : ∀ i, classOf wA i = classOf w i := by
    intro i
    rw [hwA, classOf_setModel_keep _ p i
      (withCurrent (w.models p) (dSet (w.models p).current back (Value.ref c)))
      (by rw [setModel_models_ne w c p _ hpc]; rfl)]
    rw [classOf_setModel_keep w c i
      (withCurrent (w.models c) (dSet (w.models c).current ("_" ++ key) (Value.ref p))) rfl]
  have hAeq : setAttrOp (f + 4) w c key (Value.ref p) = Except.ok wA := by
    show exec ((f + 3) + 1) w (SessCall.setAttr c key (Value.ref p)) = _
    rw [exec_setAttr_rel (f + 3) w c key (Value.ref p) ⟨key, Option.some back, cas⟩
      hkeyne hactc hrelc]
    exact relAssign_fresh f w c p key back cas hcp hactc hactp hpar hintne hbackne
      hbackstr hkeysess hrelintC hrelsessC hrelbackP hsess hbackp_ne
  have pA1 : dictGet (wA.models c).current ("_" ++ key) = Value.ref p := by
    rw [hwAc, withCurrent_current, dictGet_dSet, if_pos rfl]
  have pA2 : dictGet (wA.models p).current back = Value.ref c := by
    rw [hwAp, withCurrent_current, dictGet_dSet, if_pos rfl]
  have hactcA : (wA.models c).isActive = true := by
    rw [hwAc, withCurrent_isActive]
    exact hactc
  have hactpA : (wA.models p).isActive = true := by
    rw [hwAp, withCurrent_isActive]
    exact hactp
  have hactqA : (wA.models q).isActive = true := by
    rw [hwAq]
    exact hactq
  have hsessA : dictGet (wA.models c).current "_session" = Value.none := by
    rw [hwAc, withCurrent_current, dictGet_dSet, if_neg hkeysess]
    exact hsess
  have hbqA : dictGet (wA.models q).current back = Value.none := by
    rw [hwAq]
    exact hbq
  have hbqA_ne : dictGet (wA.models q).current back ≠ Value.ref c := by
    rw [hbqA]
    exact fun h => Value.noConfusion h
  have hnoop : setAttrOp (f + 4) wA c key (Value.ref p) = Except.ok wA := by
    show exec ((f + 3) + 1) wA (SessCall.setAttr c key (Value.ref p)) = _
    rw [exec_setAttr_rel (f + 3) wA c key (Value.ref p) ⟨key, Option.some back, cas⟩
      hkeyne hactcA (by rw [hclA c]; exact hrelc)]
    exact relAssign_noop (f + 2) wA c ⟨key, Option.some back, cas⟩ (Value.ref p) pA1
  have hBeq : setAttrOp (f + 4) wA c key Value.none
      = Except.ok (setModel (setModel wA c (withCurrent (wA.models c)
          (dSet (wA.models c).current ("_" ++ key) Value.none))) p
          (withCurrent (wA.models p) (dSet (wA.models p).current back Value.none))) := by
    show exec ((f + 3) + 1) wA (SessCall.setAttr c key Value.none) = _
    rw [exec_setAttr_rel (f + 3) wA c key Value.none ⟨key, Option.some back, cas⟩
      hkeyne hactcA (by rw [hclA c]; exact hrelc)]
    exact relAssign_clear f wA c p key back cas hcp hactcA hactpA pA1 hintne hbackne
      hbackstr hkeysess (by rw [hclA c]; exact hrelintC) (by rw [hclA c]; exact hrelsessC)
      (by rw [hclA p]; exact hrelbackP) hsessA pA2
  have pB1 : dictGet ((setModel (setModel wA c (withCurrent (wA.models c)
      (dSet (wA.models c).current ("_" ++ key) Value.none))) p
      (withCurrent (wA.models p) (dSet (wA.models p).current back Value.none))).models c).current
      ("_" ++ key) = Value.none := by
    rw [setModel_models_ne _ p c _ hcp, setModel_models_same, withCurrent_current,
      dictGet_dSet, if_pos rfl]
  have pB2 : dictGet ((setModel (setModel wA c (withCurrent (wA.models c)
      (dSet (wA.models c).current ("_" ++ key) Value.none))) p
      (withCurrent (wA.models p) (dSet (wA.models p).current back Value.none))).models p).current
      back = Value.none := by
    rw [setModel_models_same, withCurrent_current, dictGet_dSet, if_pos rfl]
  have hoj2 : Value.ref p ≠ Value.ref q := by
    intro h
    cases h
    exact hpq rfl
  have hCeq : setAttrOp (f + 4) wA c key (Value.ref q)
      = Except.ok (setModel (setModel (setModel wA c (withCurrent (wA.models c)
          (dSet (wA.models c).current ("_" ++ key) (Value.ref q)))) p
          (withCurrent (wA.models p) (dSet (wA.models p).current back Value.none))) q
          (withCurrent (wA.models q) (dSet (wA.models q).current back (Value.ref c)))) := by
    show exec ((f + 3) + 1) wA (SessCall.setAttr c key (Value.ref q)) = _
    rw [exec_setAttr_rel (f + 3) wA c key (Value.ref q) ⟨key, Option.some back, cas⟩
      hkeyne hactcA (by rw [hclA c]; exact hrelc)]
    exact relAssign_switch f wA c p q key back cas hcp hcq hpq hactcA hactpA hactqA
      pA1 hintne hbackne hbackstr hkeysess (by rw [hclA c]; exact hrelintC)
      (by rw [hclA c]; exact hrelsessC) (by rw [hclA p]; exact hrelbackP)
      (by rw [hclA q]; exact hrelbackQ) hsessA pA2 hbqA_ne hoj2
  have pC1 : dictGet ((setModel (setModel (setModel wA c (withCurrent (wA.models c)
      (dSet (wA.models c).current ("_" ++ key) (Value.ref q)))) p
      (withCurrent (wA.models p) (dSet (wA.models p).current back Value.none))) q
      (withCurrent (wA.models q) (dSet (wA.models q).current back (Value.ref c)))).models c).current
      ("_" ++ key) = Value.ref q := by
    rw [setModel_models_ne _ q c _ hcq, setModel_models_ne _ p c _ hcp,
      setModel_models_same, withCurrent_current, dictGet_dSet, if_pos rfl]
  have pC2 : dictGet ((setModel (setModel (setModel wA c (withCurrent (wA.models c)
      (dSet (wA.models c).current ("_" ++ key) (Value.ref q)))) p
      (withCurrent (wA.models p) (dSet (wA.models p).current back Value.none))) q
      (withCurrent (wA.models q) (dSet (wA.models q).current back (Value.ref c)))).models p).current
      back = Value.none := by
    rw [setModel_models_ne _ q p _ hpq, setModel_models_same, withCurrent_current,
      dictGet_dSet, if_pos rfl]
  have pC3 : dictGet ((setModel (setModel (setModel wA c (withCurrent (wA.models c)
      (dSet (wA.models c).current ("_" ++ key) (Value.ref q)))) p
      (withCurrent (wA.models p) (dSet (wA.models p).current back Value.none))) q
      (withCurrent (wA.models q) (dSet (wA.models q).current back (Value.ref c)))).models q).current
      back = Value.ref c := by
    rw [setModel_models_same, withCurrent_current, dictGet_dSet, if_pos rfl]
  exact ⟨wA, hAeq, pA1, pA2, hnoop, ⟨_, hBeq, pB1, pB2⟩, ⟨_, hCeq, pC1, pC2, pC3⟩⟩

/-- A concrete world for the relationship witness: entity `0` is a child
whose class declares `parent = Relationship(back_populates="bikes")`;
entities `1` and `2` are potential parents. -/
def wRel : World :=
  { classes := [⟨"bike", ["_entry_id"], [⟨"parent", Option.some "bikes", ""⟩]⟩,
      ⟨"user", ["_entry_id"], []⟩],
    models := fun i =>
      if i = 0 then baseInit 0 [] "c0"
      else if i = 1 then baseInit 1 [] "p1"
      else baseInit 1 [] "q2",
    session := ⟨SessState.active, Option.none, []⟩,
    effects := noEffects }

/-- Witness for C6 at the concrete world: assigning `child.parent = p`
sets both sides, and re-assigning the identical reference is a no-op. -/
theorem relationship_assignment_witness :
    ∃ wA, setAttrOp 4 wRel 0 "parent" (Value.ref 1) = Except.ok wA
      ∧ dictGet (wA.models 0).current "_parent" = Value.ref 1
      ∧ dictGet (wA.models 1).current "bikes" = Value.ref 0
      ∧ setAttrOp 4 wA 0 "parent" (Value.ref 1) = Except.ok wA := by
  obtain ⟨wA, h1, h2, h3, h4, _, _⟩ :=
    relationship_assignment 0 wRel 0 1 2 "parent" "bikes" ""
      (by decide) (by decide) (by decide) (by decide) (by decide) (by decide)
      (by decide) (by decide) rfl rfl rfl (by decide) (by decide) (by decide)
      (by decide) (by decide) (by decide) (by decide) (by decide) (by decide)
  exact ⟨wA, h1, h2, h3, h4⟩

/-! ## Schema migration diff (`polynom/application.py`, `polynom/schema/migration.py`)

A snapshot is the declarative JSON: a sequence of per-entity declarations
with ordered field declarations.  `Application._compare_snapshots` builds,
per previous entity, an entity diff whose `changes` dict maps a field name
to a `[old, new]` pair (`None` on the missing side);
`Migrator._generate_statements` turns the diff into `(namespace,
statement)` pairs.  Field declarations are embedded with the keys the two
consumers read (`name`, `type`, `nullable`, `default`, `previous_name`);
dict equality is structural equality of these records, and the rendered
`default` is carried as its SQL literal text. -/

structure FieldDecl where
  name : String
  ftype : String
  nullable : Bool
  default : Option String
  previousName : Option String
deriving DecidableEq, Repr

structure EntityDecl where
  entityName : String
  namespaceName : String
  fields : List FieldDecl
deriving DecidableEq, Repr

/-- One entry of the diff dict: the previous entity's namespace, the
(never set by `_compare_snapshots`, but read by the Migrator)
`previous_name` key, and the insertion-ordered `changes` dict. -/
structure EntityDiff where
  namespaceName : String
  previousName : Option String
  changes : List (String × (Option FieldDecl × Option FieldDecl))
deriving DecidableEq, Repr

def lookupFld (fs : List FieldDecl) (n : String) : Option FieldDecl :=
  fs.find? (fun f => f.name = n)

def lookupEnt (es : List EntityDecl) (n : String) : Option EntityDecl :=
  es.find? (fun e => e.entityName = n)

/-- `prev_name = curr_field.get('previous_name'); prev_name and
prev_name in prev_fields` — the rename test of the first loop. -/
def renameHit (prevFs : List FieldDecl) (cf : FieldDecl) : Option FieldDecl :=
  match cf.previousName with
  | Option.some pn => if pn = "" then Option.none else lookupFld prevFs pn
  | Option.none => Option.none

/-- One step of the first reconciliation loop (over current fields):
a rename hit records `[prev_fields[pn], curr_field]`; otherwise a current
name unknown to the previous field set records an add. -/
def changesStep1 (prevFs : List FieldDecl)
    (acc : List (String × (Option FieldDecl × Option FieldDecl)))
    (cf : FieldDecl) : List (String × (Option FieldDecl × Option FieldDecl)) :=
  match renameHit prevFs cf with
  | Option.some pf => dSet acc cf.name (Option.some pf, Option.some cf)
  | Option.none =>
    if (lookupFld prevFs cf.name).isNone then
      dSet acc cf.name (Option.none, Option.some cf)
    else acc

/-- `handled_prev_fields`: the previous names consumed by renames. -/
def handledPrev (prevFs currFs : List FieldDecl) : List String :=
  currFs.filterMap (fun cf =>
    match cf.previousName with
    | Option.some pn =>
      if pn = "" then Option.none
      else if (lookupFld prevFs pn).isSome then Option.some pn else Option.none
    | Option.none => Option.none)

/-- One step of the second loop (over previous fields): skip names
consumed by renames; a previous name with no current counterpart is a
drop; one present on both sides with a changed declaration is a modify. -/
def changesStep2 (currFs : List FieldDecl) (handled : List String)
    (acc : List (String × (Option FieldDecl × Option FieldDecl)))
    (pf : FieldDecl) : List (String × (Option FieldDecl × Option FieldDecl)) :=
  if handled.contains pf.name then acc
  else
    match lookupFld currFs pf.name with
    | Option.none => dSet acc pf.name (Option.some pf, Option.none)
    | Option.some cf =>
      if pf = cf then acc else dSet acc pf.name (Option.some pf, Option.some cf)

/-- The per-entity field reconciliation of `_compare_snapshots`. -/
def entityChanges (prevFs currFs : List FieldDecl) :
    List (String × (Option FieldDecl × Option FieldDecl)) :=
  prevFs.foldl (changesStep2 currFs (handledPrev prevFs currFs))
    (currFs.foldl (changesStep1 prevFs) [])

/-- One step of `_compare_snapshots`' outer loop over previous entities:
an entity absent from the current snapshot is recorded with empty changes
(the entity-level drop marker); otherwise its field changes are recorded
only when non-empty. -/
def compareStep (current : List EntityDecl)
    (diff : List (String × EntityDiff)) (pe : EntityDecl) :
    List (String × EntityDiff) :=
  match lookupEnt current pe.entityName with
  | Option.none => dSet diff pe.entityName ⟨pe.namespaceName, Option.none, []⟩
  | Option.some ce =>
    let chs := entityChanges pe.fields ce.fields
    if chs.isEmpty then diff
    else dSet diff pe.entityName ⟨pe.namespaceName, Option.none, chs⟩

/-- `Application._compare_snapshots(previous, current)`. -/
def compare_snapshots (previous current : List EntityDecl) :
    List (String × EntityDiff) :=
  previous.foldl (compareStep current) []

/-- `Migrator._quote_identifier(*parts)`: quote and dot-join the truthy
parts. -/
def quote_identifier (parts : List String) : String :=
  String.intercalate "." ((parts.filter (fun p => p ≠ "")).map (fun p => "\"" ++ p ++ "\""))

/-- Python `str.strip()` (list-level, so it evaluates in the kernel). -/
def pyStrip (s : String) : String :=
  String.mk (((s.toList.dropWhile Char.isWhitespace).reverse.dropWhile
    Char.isWhitespace).reverse)

/-- `Migrator._column_definition(field)`. -/
def column_definition (field : FieldDecl) : String :=
  let column_name := "\"" ++ field.name ++ "\""
  let nullability := if field.nullable then "NULL" else "NOT NULL"
  let default_value :=
    match field.default with
    | Option.some d => "DEFAULT " ++ d
    | Option.none => ""
  pyStrip (column_name ++ " " ++ field.ftype ++ " " ++ nullability ++ " " ++ default_value)

/-- `Migrator._generate_column_modification_statements`: one statement per
changed attribute among nullability, default and type. -/
def column_modification_statements (qt col : String) (old_field new_field : FieldDecl) :
    List String :=
  let qc := "\"" ++ col ++ "\""
  (if old_field.nullable ≠ new_field.nullable then
    (if new_field.nullable then
      ["ALTER TABLE " ++ qt ++ " MODIFY COLUMN " ++ qc ++ " DROP NOT NULL"]
    else
      ["ALTER TABLE " ++ qt ++ " MODIFY COLUMN " ++ qc ++ " SET NOT NULL"])
  else [])
  ++ (if old_field.default ≠ new_field.default then
    (match new_field.default with
     | Option.some d =>
      ["ALTER TABLE " ++ qt ++ " MODIFY COLUMN " ++ qc ++ " SET DEFAULT " ++ d]
     | Option.none =>
      ["ALTER TABLE " ++ qt ++ " MODIFY COLUMN " ++ qc ++ " DROP DEFAULT"])
  else [])
  ++ (if old_field.ftype ≠ new_field.ftype then
    ["ALTER TABLE " ++ qt ++ " MODIFY COLUMN " ++ qc ++ " SET TYPE " ++ new_field.ftype]
  else [])

/-- The statements generated for one `changes` entry: the drop/add/rename
`elif` chain followed by the independent modification check. -/
def changeStatements (qt ns field_name : String) :
    Option FieldDecl → Option FieldDecl → List (String × String)
  | Option.some _, Option.none =>
    [(ns, "ALTER TABLE " ++ qt ++ " DROP COLUMN \"" ++ field_name ++ "\"")]
  | Option.none, Option.some nf =>
    [(ns, "ALTER TABLE " ++ qt ++ " ADD COLUMN " ++ column_definition nf)]
  | Option.some of, Option.some nf =>
    (if of.name ≠ nf.name then
      (match nf.previousName with
       | Option.some pn =>
        if pn ≠ "" ∧ pn ≠ nf.name then
          [(ns, "ALTER TABLE " ++ qt ++ " RENAME COLUMN \"" ++ pn ++ "\" TO \"" ++ nf.name ++ "\"")]
        else []
       | Option.none => [])
    else [])
    ++ (if of ≠ nf then
      (column_modification_statements qt nf.name of nf).map (fun st => (ns, st))
    else [])
  | Option.none, Option.none => []

/-- The statements generated for one diff entry: the optional table
rename, then the per-change statements in `changes` order. -/
def entityStatements (tableName : String) (ed : EntityDiff) : List (String × String) :=
  let ns := ed.namespaceName
  let qt := quote_identifier [ns, tableName]
  let renameTbl :=
    match ed.previousName with
    | Option.some pn =>
      if pn ≠ "" ∧ pn ≠ tableName then
        [(ns, "ALTER TABLE " ++ quote_identifier [ns, pn] ++ " RENAME TO \"" ++ tableName ++ "\"")]
      else []
    | Option.none => []
  renameTbl ++ ed.changes.foldl
    (fun acc ch => acc ++ changeStatements qt ns ch.1 ch.2.1 ch.2.2) []

/-- `Migrator._generate_statements(diff)` collected in diff order. -/
def generate_statements (diff : List (String × EntityDiff)) : List (String × String) :=
  diff.foldl (fun acc te => acc ++ entityStatements te.1 te.2) []

example :
    compare_snapshots
      [⟨"T", "public", [⟨"a", "int", true, Option.none, Option.none⟩]⟩]
      [⟨"T", "public", [⟨"a", "int", true, Option.none, Option.none⟩,
        ⟨"b", "text", true, Option.none, Option.none⟩]⟩]
    = [("T", ⟨"public", Option.none,
        [("b", (Option.none, Option.some ⟨"b", "text", true, Option.none, Option.none⟩))]⟩)] := by
  decide

example :
    generate_statements
      [("T", ⟨"public", Option.none,
        [("b", (Option.none, Option.some ⟨"b", "text", true, Option.none, Option.none⟩))]⟩)]
    = [("public", "ALTER TABLE \"public\".\"T\" ADD COLUMN \"b\" text NULL")] := by
  decide

theorem foldl_skip {α β : Type} (f : β → α → β) (l : List α)
    (h : ∀ x, x ∈ l → ∀ acc, f acc x = acc) : ∀ b, l.foldl f b = b := by
  induction l with
  | nil => intro b; rfl
  | cons a l ih =>
    intro b
    rw [List.foldl_cons, h a (List.mem_cons_self a l) b]
    exact ih (fun x hx acc => h x (List.mem_cons_of_mem a hx) acc) b

theorem containsFalse {l : List String} {a : String} (h : a ∉ l) :
    l.contains a = false := by
  cases hq : l.contains a
  · rfl
  · exact absurd (memContains.1 hq) h

theorem lookupFld_self (fs : List FieldDecl) (hnd : (fs.map (·.name)).Nodup)
    (pf : FieldDecl) (hmem : pf ∈ fs) : lookupFld fs pf.name = Option.some pf := by
  induction fs with
  | nil => cases hmem
  | cons f rest ih =>
    rw [List.map_cons, List.nodup_cons] at hnd
    rcases List.mem_cons.1 hmem with rfl | hmem2
    · rw [lookupFld, List.find?_cons_of_pos _ (by simp)]
    · have hne : ¬ (f.name = pf.name) := by
        intro h
        exact hnd.1 (h ▸ List.mem_map.2 ⟨pf, hmem2, rfl⟩)
      rw [lookupFld, List.find?_cons_of_neg _ (by simp [hne])]
      exact ih hnd.2 hmem2

theorem lookupFld_none (fs : List FieldDecl) (k : String)
    (h : ∀ f, f ∈ fs → f.name ≠ k) : lookupFld fs k = Option.none := by
  rw [lookupFld, List.find?_eq_none]
  intro f hf
  simp [h f hf]

theorem lookupFld_append_some (fs gs : List FieldDecl) (k : String) (pf : FieldDecl)
    (h : lookupFld fs k = Option.some pf) :
    lookupFld (fs ++ gs) k = Option.some pf := by
  induction fs with
  | nil => cases h
  | cons f rest ih =>
    by_cases hfk : f.name = k
    · rw [lookupFld, List.find?_cons_of_pos _ (by simp [hfk])] at h
      rw [lookupFld, List.cons_append, List.find?_cons_of_pos _ (by simp [hfk])]
      exact h
    · rw [lookupFld, List.find?_cons_of_neg _ (by simp [hfk])] at h
      rw [lookupFld, List.cons_append, List.find?_cons_of_neg _ (by simp [hfk])]
      exact ih h

theorem changesStep1_skip (prevFs : List FieldDecl) (cf : FieldDecl)
    (hpn : cf.previousName = Option.none)
    (hin : (lookupFld prevFs cf.name).isSome = true) :
    ∀ acc, changesStep1 prevFs acc cf = acc := by
  intro acc
  rw [changesStep1, renameHit, hpn]
  cases hq : lookupFld prevFs cf.name with
  | none => rw [hq] at hin; cases hin
  | some pf => rfl

theorem changesStep2_skip_found (currFs : List FieldDecl) (handled : List String)
    (pf : FieldDecl)
    (hh : handled.contains pf.name = false)
    (hl : lookupFld currFs pf.name = Option.some pf) :
    ∀ acc, changesStep2 currFs handled acc pf = acc := by
  intro acc
  rw [changesStep2, hh, hl]
  simp

theorem changesStep2_skip_handled (currFs : List FieldDecl) (handled : List String)
    (pf : FieldDecl) (hh : handled.contains pf.name = true) :
    ∀ acc, changesStep2 currFs handled acc pf = acc := by
  intro acc
  rw [changesStep2, hh]
  simp

theorem handledPrev_nil_markers (prevFs currFs : List FieldDecl)
    (h : ∀ cf, cf ∈ currFs → cf.previousName = Option.none) :
    handledPrev prevFs currFs = [] := by
  rw [handledPrev, List.filterMap_eq_nil_iff]
  intro cf hcf
  rw [h cf hcf]

/-- An entity identical in both snapshots yields no change entries. -/
theorem entityChanges_self (fs : List FieldDecl)
    (hnd : (fs.map (·.name)).Nodup)
    (hmk : ∀ f, f ∈ fs → f.previousName = Option.none) :
    entityChanges fs fs = [] := by
  rw [entityChanges]
  rw [foldl_skip (changesStep1 fs) fs
    (fun cf hcf => changesStep1_skip fs cf (hmk cf hcf)
      (by rw [lookupFld_self fs hnd cf hcf]; rfl)) []]
  rw [handledPrev_nil_markers fs fs hmk]
  exact foldl_skip _ fs
    (fun pf hpf => changesStep2_skip_found fs [] pf rfl
      (lookupFld_self fs hnd pf hpf)) []

/-- Adding one field to an otherwise unchanged entity yields exactly the
one add entry for that field. -/
theorem entityChanges_add (fs : List FieldDecl) (bf : FieldDecl)
    (hnd : ((fs ++ [bf]).map (·.name)).Nodup)
    (hmk : ∀ f, f ∈ fs → f.previousName = Option.none)
    (hmkb : bf.previousName = Option.none) :
    entityChanges fs (fs ++ [bf])
      = [(bf.name, (Option.none, Option.some bf))] := by
  have h3 := List.nodup_append.1 (by rwa [List.map_append] at hnd)
  have hndfs : (fs.map (·.name)).Nodup := h3.1
  have hbfresh : bf.name ∉ fs.map (·.name) :=
    fun hmem => h3.2.2 hmem (by simp)
  have hlooknone : lookupFld fs bf.name = Option.none := by
    refine lookupFld_none fs bf.name ?_
    intro f hf heq
    exact hbfresh (heq ▸ List.mem_map.2 ⟨f, hf, rfl⟩)
  have hstep : changesStep1 fs [] bf
      = [(bf.name, (Option.none, Option.some bf))] := by
    rw [changesStep1, renameHit, hmkb, hlooknone]
    rfl
  rw [entityChanges, List.foldl_append]
  rw [foldl_skip (changesStep1 fs) fs
    (fun cf hcf => changesStep1_skip fs cf (hmk cf hcf)
      (by rw [lookupFld_self fs hndfs cf hcf]; rfl)) []]
  rw [List.foldl_cons, List.foldl_nil, hstep]
  rw [handledPrev_nil_markers fs (fs ++ [bf]) ?hmarks]
  case hmarks =>
    intro cf hcf
    rcases List.mem_append.1 hcf with h | h
    · exact hmk cf h
    · rcases List.mem_singleton.1 h with rfl
      exact hmkb
  refine foldl_skip _ fs ?_ _
  intro pf hpf
  refine changesStep2_skip_found (fs ++ [bf]) [] pf rfl ?_
  exact lookupFld_append_some fs [bf] pf.name pf (lookupFld_self fs hndfs pf hpf)

/-- A field renamed via a declared previous name, with all other field
attributes unchanged, yields exactly the one rename entry keyed by the
new name, recording old and new declarations. -/
theorem entityChanges_rename (fs₁ fs₂ : List FieldDecl) (oldF newF : FieldDecl)
    (hndp : ((fs₁ ++ oldF :: fs₂).map (·.name)).Nodup)
    (hndc : ((fs₁ ++ newF :: fs₂).map (·.name)).Nodup)
    (hmk : ∀ f, f ∈ fs₁ ++ fs₂ → f.previousName = Option.none)
    (hmkn : newF.previousName = Option.some oldF.name)
    (holdne : ¬ (oldF.name = "")) :
    entityChanges (fs₁ ++ oldF :: fs₂) (fs₁ ++ newF :: fs₂)
      = [(newF.name, (Option.some oldF, Option.some newF))] := by
  have hp := List.nodup_append.1 (by rwa [List.map_append] at hndp)
  have hc := List.nodup_append.1 (by rwa [List.map_append] at hndc)
  have holdmem : oldF ∈ fs₁ ++ oldF :: fs₂ :=
    List.mem_append_right fs₁ (List.mem_cons_self oldF fs₂)
  have hlookOld : lookupFld (fs₁ ++ oldF :: fs₂) oldF.name = Option.some oldF :=
    lookupFld_self _ hndp oldF holdmem
  -- names in fs₁ and fs₂ differ from oldF.name
  have hne₁ : ∀ pf, pf ∈ fs₁ → ¬ (pf.name = oldF.name) := by
    intro pf hpf heq
    exact hp.2.2 (List.mem_map.2 ⟨pf, hpf, rfl⟩)
      (heq ▸ List.mem_map.2 ⟨oldF, List.mem_cons_self oldF fs₂, rfl⟩)
  have hne₂ : ∀ pf, pf ∈ fs₂ → ¬ (pf.name = oldF.name) := by
    intro pf hpf heq
    rw [List.map_cons, List.nodup_cons] at hp
    exact hp.2.1.1 (heq ▸ List.mem_map.2 ⟨pf, hpf, rfl⟩)
  -- the rename test fires for newF
  have hren : renameHit (fs₁ ++ oldF :: fs₂) newF = Option.some oldF := by
    rw [renameHit, hmkn]
    show (if oldF.name = "" then Option.none
      else lookupFld (fs₁ ++ oldF :: fs₂) oldF.name) = Option.some oldF
    rw [if_neg holdne, hlookOld]
  have hstepN : ∀ acc, changesStep1 (fs₁ ++ oldF :: fs₂) acc newF
      = dSet acc newF.name (Option.some oldF, Option.some newF) := by
    intro acc
    rw [changesStep1, hren]
  -- first loop: fs₁ and fs₂ are skipped, newF records the rename
  have h1 : (fs₁ ++ newF :: fs₂).foldl (changesStep1 (fs₁ ++ oldF :: fs₂)) []
      = [(newF.name, (Option.some oldF, Option.some newF))] := by
    rw [List.foldl_append]
    rw [foldl_skip _ fs₁ (fun cf hcf => changesStep1_skip _ cf
      (hmk cf (List.mem_append_left fs₂ hcf))
      (by rw [lookupFld_self _ hndp cf (List.mem_append_left _ hcf)]; rfl)) []]
    rw [List.foldl_cons, hstepN]
    exact foldl_skip _ fs₂ (fun cf hcf => changesStep1_skip _ cf
      (hmk cf (List.mem_append_right fs₁ hcf))
      (by rw [lookupFld_self _ hndp cf
        (List.mem_append_right fs₁ (List.mem_cons_of_mem oldF hcf))]; rfl)) _
  -- the set of previous names consumed by renames
  have hh : handledPrev (fs₁ ++ oldF :: fs₂) (fs₁ ++ newF :: fs₂)
      = [oldF.name] := by
    rw [handledPrev, List.filterMap_append]
    rw [List.filterMap_eq_nil_iff.2 (fun cf hcf => by
      rw [hmk cf (List.mem_append_left fs₂ hcf)])]
    rw [List.filterMap_cons]
    have hfN : (match newF.previousName with
        | Option.some pn =>
          if pn = "" then Option.none
          else if (lookupFld (fs₁ ++ oldF :: fs₂) pn).isSome
            then Option.some pn else Option.none
        | Option.none => Option.none) = Option.some oldF.name := by
      rw [hmkn]
      show (if oldF.name = "" then Option.none
        else if (lookupFld (fs₁ ++ oldF :: fs₂) oldF.name).isSome
          then Option.some oldF.name else Option.none) = Option.some oldF.name
      rw [if_neg holdne, hlookOld]
      rfl
    rw [hfN]
    rw [List.filterMap_eq_nil_iff.2 (fun cf hcf => by
      rw [hmk cf (List.mem_append_right fs₁ hcf)])]
    rfl
  -- second loop: oldF is consumed, everything else is unchanged in place
  rw [entityChanges, h1, hh, List.foldl_append, List.foldl_cons]
  rw [foldl_skip _ fs₁ (fun pf hpf => changesStep2_skip_found _ _ pf
    (containsFalse (fun hm => hne₁ pf hpf (List.mem_singleton.1 hm)))
    (lookupFld_self _ hndc pf (List.mem_append_left _ hpf))) _]
  rw [changesStep2_skip_handled _ _ oldF
    (memContains.2 (List.mem_singleton.2 rfl))]
  exact foldl_skip _ fs₂ (fun pf hpf => changesStep2_skip_found _ _ pf
    (containsFalse (fun hm => hne₂ pf hpf (List.mem_singleton.1 hm)))
    (lookupFld_self _ hndc pf
      (List.mem_append_right fs₁ (List.mem_cons_of_mem newF hpf)))) _

theorem compareStep_skip (current : List EntityDecl) (e : EntityDecl)
    (hl : lookupEnt current e.entityName = Option.some e)
    (hnd : (e.fields.map (·.name)).Nodup)
    (hmk : ∀ f, f ∈ e.fields → f.previousName = Option.none) :
    ∀ acc, compareStep current acc e = acc := by
  intro acc
  rw [compareStep, hl]
  show (let chs := entityChanges e.fields e.fields;
    if chs.isEmpty = true then acc
    else dSet acc e.entityName ⟨e.namespaceName, Option.none, chs⟩) = acc
  rw [entityChanges_self e.fields hnd hmk]
  rfl

theorem compareStep_drop (current : List EntityDecl) (e : EntityDecl)
    (hl : lookupEnt current e.entityName = Option.none) :
    ∀ acc, compareStep current acc e
      = dSet acc e.entityName ⟨e.namespaceName, Option.none, []⟩ := by
  intro acc
  rw [compareStep, hl]

theorem compareStep_changes (current : List EntityDecl) (e ce : EntityDecl)
    (chs : List (String × (Option FieldDecl × Option FieldDecl)))
    (hl : lookupEnt current e.entityName = Option.some ce)
    (hch : entityChanges e.fields ce.fields = chs)
    (hne : chs.isEmpty = false) :
    ∀ acc, compareStep current acc e
      = dSet acc e.entityName ⟨e.namespaceName, Option.none, chs⟩ := by
  intro acc
  rw [compareStep, hl]
  show (if (entityChanges e.fields ce.fields).isEmpty = true then acc
    else dSet acc e.entityName
      ⟨e.namespaceName, Option.none, entityChanges e.fields ce.fields⟩) = _
  rw [hch, hne]
  rfl

/-- A fold over a dict in which every element is either a no-op or the
same single insertion produces exactly that singleton dict. -/
theorem foldl_dict_single {γ : Type} (l : List γ)
    (step : List (String × EntityDiff) → γ → List (String × EntityDiff))
    (k : String) (d : EntityDiff)
    (h : ∀ e, e ∈ l →
      (∀ acc, step acc e = acc) ∨ (∀ acc, step acc e = dSet acc k d))
    (hex : ∃ e, e ∈ l ∧ ∀ acc, step acc e = dSet acc k d) :
    l.foldl step [] = [(k, d)] := by
  have haux : ∀ (t : List γ), (∀ e, e ∈ t →
      (∀ acc, step acc e = acc) ∨ (∀ acc, step acc e = dSet acc k d)) →
      t.foldl step [(k, d)] = [(k, d)] := by
    intro t ht
    induction t with
    | nil => rfl
    | cons a t ih =>
      rw [List.foldl_cons]
      rcases ht a (List.mem_cons_self a t) with ha | ha
      · rw [ha]
        exact ih (fun e he => ht e (List.mem_cons_of_mem a he))
      · rw [ha, show dSet [(k, d)] k d = [(k, d)] from by rw [dSet]; simp]
        exact ih (fun e he => ht e (List.mem_cons_of_mem a he))
  induction l with
  | nil => rcases hex with ⟨e, he, _⟩; cases he
  | cons a t ih =>
    rw [List.foldl_cons]
    rcases h a (List.mem_cons_self a t) with ha | ha
    · rw [ha]
      refine ih (fun e he => h e (List.mem_cons_of_mem a he)) ?_
      rcases hex with ⟨e, he, hstep⟩
      rcases List.mem_cons.1 he with rfl | he2
      · exfalso
        have h1 := ha []
        have h2 := hstep []
        rw [h1] at h2
        cases h2
      · exact ⟨e, he2, hstep⟩
    · rw [ha]
      rw [show dSet ([] : List (String × EntityDiff)) k d = [(k, d)] from rfl]
      exact haux t (fun e he => h e (List.mem_cons_of_mem a he))

/-- The statements produced by one rename change entry: the rename-column
statement, and nothing else when all other attributes are unchanged. -/
theorem changeStatements_rename (qt ns : String) (of nf : FieldDecl)
    (hne : ¬ (of.name = nf.name)) (hpn : nf.previousName = Option.some of.name)
    (hne2 : ¬ (of.name = ""))
    (hft : nf.ftype = of.ftype) (hnul : nf.nullable = of.nullable)
    (hdef : nf.default = of.default) :
    changeStatements qt ns nf.name (Option.some of) (Option.some nf)
      = [(ns, "ALTER TABLE " ++ qt ++ " RENAME COLUMN \x22" ++ of.name
          ++ "\x22 TO \x22" ++ nf.name ++ "\x22")] := by
  have hofnf : of ≠ nf := fun h => hne (by rw [h])
  have hbranch : (match nf.previousName with
     | Option.some pn =>
      if pn ≠ "" ∧ pn ≠ nf.name then
        [(ns, "ALTER TABLE " ++ qt ++ " RENAME COLUMN \x22" ++ pn
          ++ "\x22 TO \x22" ++ nf.name ++ "\x22")]
      else []
     | Option.none => ([] : List (String × String)))
    = [(ns, "ALTER TABLE " ++ qt ++ " RENAME COLUMN \x22" ++ of.name
        ++ "\x22 TO \x22" ++ nf.name ++ "\x22")] := by
    rw [hpn]
    show (if ¬ of.name = "" ∧ ¬ of.name = nf.name then _ else _) = _
    rw [if_pos (And.intro hne2 hne)]
  show ((if of.name ≠ nf.name then
      (match nf.previousName with
       | Option.some pn =>
        if pn ≠ "" ∧ pn ≠ nf.name then
          [(ns, "ALTER TABLE " ++ qt ++ " RENAME COLUMN \x22" ++ pn
            ++ "\x22 TO \x22" ++ nf.name ++ "\x22")]
        else []
       | Option.none => [])
    else [])
    ++ (if of ≠ nf then
      (column_modification_statements qt nf.name of nf).map (fun st => (ns, st))
    else [])) = _
  rw [if_pos hne, hbranch, if_pos hofnf]
  simp [column_modification_statements, hft, hnul, hdef]

/-- C7: for every pair of schema snapshots: (i) adding one field `bf` to an
otherwise unchanged entity yields exactly the one diff entry for `bf` and
exactly one ADD COLUMN statement for it; (ii) removing an entity from the
current snapshot yields one entity-level drop entry (empty changes) and no
column-level statements for that entity; (iii) a field renamed via its
declared previous name (other attributes unchanged) yields exactly the one
rename diff entry and one RENAME COLUMN statement — no add/drop pair. -/
theorem migration_statements :
    (∀ (previous current : List EntityDecl) (T Tc : EntityDecl) (bf : FieldDecl),
      T ∈ previous →
      lookupEnt current T.entityName = Option.some Tc →
      Tc.fields = T.fields ++ [bf] →
      ((T.fields ++ [bf]).map (·.name)).Nodup →
      (∀ f, f ∈ T.fields → f.previousName = Option.none) →
      bf.previousName = Option.none →
      (∀ e, e ∈ previous → e = T ∨
        (lookupEnt current e.entityName = Option.some e ∧
         (e.fields.map (·.name)).Nodup ∧
         ∀ f, f ∈ e.fields → f.previousName = Option.none)) →
      compare_snapshots previous current
        = [(T.entityName, ⟨T.namespaceName, Option.none,
            [(bf.name, (Option.none, Option.some bf))]⟩)] ∧
      generate_statements (compare_snapshots previous current)
        = [(T.namespaceName, "ALTER TABLE "
            ++ quote_identifier [T.namespaceName, T.entityName]
            ++ " ADD COLUMN " ++ column_definition bf)])
    ∧
    (∀ (previous current : List EntityDecl) (T : EntityDecl),
      T ∈ previous →
      lookupEnt current T.entityName = Option.none →
      (∀ e, e ∈ previous → e = T ∨
        (lookupEnt current e.entityName = Option.some e ∧
         (e.fields.map (·.name)).Nodup ∧
         ∀ f, f ∈ e.fields → f.previousName = Option.none)) →
      compare_snapshots previous current
        = [(T.entityName, ⟨T.namespaceName, Option.none, []⟩)] ∧
      generate_statements (compare_snapshots previous current) = [])
    ∧
    (∀ (previous current : List EntityDecl) (T Tc : EntityDecl)
        (fs₁ fs₂ : List FieldDecl) (oldF newF : FieldDecl),
      T ∈ previous →
      lookupEnt current T.entityName = Option.some Tc →
      T.fields = fs₁ ++ oldF :: fs₂ →
      Tc.fields = fs₁ ++ newF :: fs₂ →
      ((fs₁ ++ oldF :: fs₂).map (·.name)).Nodup →
      ((fs₁ ++ newF :: fs₂).map (·.name)).Nodup →
      (∀ f, f ∈ fs₁ ++ fs₂ → f.previousName = Option.none) →
      newF.previousName = Option.some oldF.name →
      ¬ (oldF.name = "") →
      ¬ (oldF.name = newF.name) →
      newF.ftype = oldF.ftype → newF.nullable = oldF.nullable →
      newF.default = oldF.default →
      (∀ e, e ∈ previous → e = T ∨
        (lookupEnt current e.entityName = Option.some e ∧
         (e.fields.map (·.name)).Nodup ∧
         ∀ f, f ∈ e.fields → f.previousName = Option.none)) →
      compare_snapshots previous current
        = [(T.entityName, ⟨T.namespaceName, Option.none,
            [(newF.name, (Option.some oldF, Option.some newF))]⟩)] ∧
      generate_statements (compare_snapshots previous current)
        = [(T.namespaceName, "ALTER TABLE "
            ++ quote_identifier [T.namespaceName, T.entityName]
            ++ " RENAME COLUMN \x22" ++ oldF.name
            ++ "\x22 TO \x22" ++ newF.name ++ "\x22")]) := by
  refine ⟨?part1, ?part2, ?part3⟩
  case part1 =>
    intro previous current T Tc bf hmem hlook hTc hnd hmk hmkb hothers
    have hch : entityChanges T.fields Tc.fields
        = [(bf.name, (Option.none, Option.some bf))] := by
      rw [hTc]
      exact entityChanges_add T.fields bf hnd hmk hmkb
    have hdSet := compareStep_changes current T Tc _ hlook hch rfl
    have hcmp : compare_snapshots previous current
        = [(T.entityName, ⟨T.namespaceName, Option.none,
            [(bf.name, (Option.none, Option.some bf))]⟩)] := by
      rw [compare_snapshots]
      refine foldl_dict_single previous (compareStep current) T.entityName _
        ?_ ⟨T, hmem, hdSet⟩
      intro e he
      rcases hothers e he with rfl | ⟨hle, hnde, hmke⟩
      · exact Or.inr hdSet
      · exact Or.inl (compareStep_skip current e hle hnde hmke)
    exact ⟨hcmp, by rw [hcmp]; rfl⟩
  case part2 =>
    intro previous current T hmem hlook hothers
    have hdSet := compareStep_drop current T hlook
    have hcmp : compare_snapshots previous current
        = [(T.entityName, ⟨T.namespaceName, Option.none, []⟩)] := by
      rw [compare_snapshots]
      refine foldl_dict_single previous (compareStep current) T.entityName _
        ?_ ⟨T, hmem, hdSet⟩
      intro e he
      rcases hothers e he with rfl | ⟨hle, hnde, hmke⟩
      · exact Or.inr hdSet
      · exact Or.inl (compareStep_skip current e hle hnde hmke)
    exact ⟨hcmp, by rw [hcmp]; rfl⟩
  case part3 =>
    intro previous current T Tc fs₁ fs₂ oldF newF hmem hlook hTf hTcf hndp hndc
      hmk hmkn holdne hnamene hft hnul hdef hothers
    have hch : entityChanges T.fields Tc.fields
        = [(newF.name, (Option.some oldF, Option.some newF))] := by
      rw [hTf, hTcf]
      exact entityChanges_rename fs₁ fs₂ oldF newF hndp hndc hmk hmkn holdne
    have hdSet := compareStep_changes current T Tc _ hlook hch rfl
    have hcmp : compare_snapshots previous current
        = [(T.entityName, ⟨T.namespaceName, Option.none,
            [(newF.name, (Option.some oldF, Option.some newF))]⟩)] := by
      rw [compare_snapshots]
      refine foldl_dict_single previous (compareStep current) T.entityName _
        ?_ ⟨T, hmem, hdSet⟩
      intro e he
      rcases hothers e he with rfl | ⟨hle, hnde, hmke⟩
      · exact Or.inr hdSet
      · exact Or.inl (compareStep_skip current e hle hnde hmke)
    refine ⟨hcmp, ?_⟩
    rw [hcmp]
    rw [show generate_statements [(T.entityName, ⟨T.namespaceName, Option.none,
        [(newF.name, (Option.some oldF, Option.some newF))]⟩)]
      = changeStatements (quote_identifier [T.namespaceName, T.entityName])
          T.namespaceName newF.name (Option.some oldF) (Option.some newF)
      from rfl]
    exact changeStatements_rename _ _ oldF newF hnamene hmkn holdne hft hnul hdef

/-- Witness for C7: the three parts applied to concrete snapshots —
add `b: text` to `T(a: int)`; drop entity `U`; rename `a` to `a2`. -/
theorem migration_statements_witness :
    (compare_snapshots
        [⟨"T", "public", [⟨"a", "int", true, Option.none, Option.none⟩]⟩]
        [⟨"T", "public", [⟨"a", "int", true, Option.none, Option.none⟩,
          ⟨"b", "text", true, Option.none, Option.none⟩]⟩]
      = [("T", ⟨"public", Option.none,
          [("b", (Option.none,
            Option.some ⟨"b", "text", true, Option.none, Option.none⟩))]⟩)] ∧
     generate_statements (compare_snapshots
        [⟨"T", "public", [⟨"a", "int", true, Option.none, Option.none⟩]⟩]
        [⟨"T", "public", [⟨"a", "int", true, Option.none, Option.none⟩,
          ⟨"b", "text", true, Option.none, Option.none⟩]⟩])
      = [("public", "ALTER TABLE " ++ quote_identifier ["public", "T"]
          ++ " ADD COLUMN "
          ++ column_definition ⟨"b", "text", true, Option.none, Option.none⟩)])
    ∧
    (compare_snapshots
        [⟨"U", "public", [⟨"a", "int", true, Option.none, Option.none⟩]⟩] []
      = [("U", ⟨"public", Option.none, []⟩)] ∧
     generate_statements (compare_snapshots
        [⟨"U", "public", [⟨"a", "int", true, Option.none, Option.none⟩]⟩] [])
      = [])
    ∧
    (compare_snapshots
        [⟨"T", "public", [⟨"a", "int", true, Option.none, Option.none⟩]⟩]
        [⟨"T", "public", [⟨"a2", "int", true, Option.none, Option.some "a"⟩]⟩]
      = [("T", ⟨"public", Option.none,
          [("a2", (Option.some ⟨"a", "int", true, Option.none, Option.none⟩,
            Option.some ⟨"a2", "int", true, Option.none, Option.some "a"⟩))]⟩)] ∧
     generate_statements (compare_snapshots
        [⟨"T", "public", [⟨"a", "int", true, Option.none, Option.none⟩]⟩]
        [⟨"T", "public", [⟨"a2", "int", true, Option.none, Option.some "a"⟩]⟩])
      = [("public", "ALTER TABLE " ++ quote_identifier ["public", "T"]
          ++ " RENAME COLUMN \x22" ++ "a" ++ "\x22 TO \x22" ++ "a2" ++ "\x22")]) :=
  ⟨migration_statements.1
      [⟨"T", "public", [⟨"a", "int", true, Option.none, Option.none⟩]⟩]
      [⟨"T", "public", [⟨"a", "int", true, Option.none, Option.none⟩,
        ⟨"b", "text", true, Option.none, Option.none⟩]⟩]
      ⟨"T", "public", [⟨"a", "int", true, Option.none, Option.none⟩]⟩
      ⟨"T", "public", [⟨"a", "int", true, Option.none, Option.none⟩,
        ⟨"b", "text", true, Option.none, Option.none⟩]⟩
      ⟨"b", "text", true, Option.none, Option.none⟩
      (by decide) (by decide) (by decide) (by decide) (by decide) (by decide)
      (by decide),
   migration_statements.2.1
      [⟨"U", "public", [⟨"a", "int", true, Option.none, Option.none⟩]⟩] []
      ⟨"U", "public", [⟨"a", "int", true, Option.none, Option.none⟩]⟩
      (by decide) (by decide) (by decide),
   migration_statements.2.2
      [⟨"T", "public", [⟨"a", "int", true, Option.none, Option.none⟩]⟩]
      [⟨"T", "public", [⟨"a2", "int", true, Option.none, Option.some "a"⟩]⟩]
      ⟨"T", "public", [⟨"a", "int", true, Option.none, Option.none⟩]⟩
      ⟨"T", "public", [⟨"a2", "int", true, Option.none, Option.some "a"⟩]⟩
      [] [] ⟨"a", "int", true, Option.none, Option.none⟩
      ⟨"a2", "int", true, Option.none, Option.some "a"⟩
      (by decide) (by decide) (by decide) (by decide) (by decide) (by decide)
      (by decide) (by decide) (by decide) (by decide) (by decide) (by decide)
      (by decide) (by decide)⟩

end PolyNOM
